import Mathlib

/-!
# Verification of the `scripted` core (sphirio-systems)

Shallow embedding of `src/clix/scripted_core.hpp` and
`src/clix/scripted_kernel.hpp`: the base-N integer codec, the bank text
format parser/serializer, the multi-pass reference resolver, and the
plugin kernel's run sequence.  Strings are modelled as `List Char`
(`Str`), C++ `long long` as `Int` with explicit two's-complement
wrapping where the source relies on it, the filesystem as an explicit
association map threaded through the functions that touch it, and the
recursive resolver with an explicit fuel parameter (the C++ recursion
has no syntactic bound; fuel exhaustion is reported as a distinct
error so that it can never be confused with genuine behaviour).
-/

deriving instance DecidableEq for Except

namespace Scripted

/-- C++ `std::string` contents, modelled as a list of characters. -/
abbrev Str := List Char

/-- Two's-complement wrap of an integer into the `long long` range
`[-2^63, 2^63)`, used where the source arithmetic can overflow. -/
def wrap64 (x : Int) : Int := (x + 2 ^ 63) % 2 ^ 64 - 2 ^ 63

/-- `digitValue` from scripted_core.hpp: value of a digit character in
bases up to 36, `-1` for a non-digit. -/
def digitValue (c : Char) : Int :=
  if '0' ≤ c ∧ c ≤ '9' then (c.toNat : Int) - ('0'.toNat : Int)
  else if 'A' ≤ c ∧ c ≤ 'Z' then 10 + ((c.toNat : Int) - ('A'.toNat : Int))
  else if 'a' ≤ c ∧ c ≤ 'z' then 10 + ((c.toNat : Int) - ('a'.toNat : Int))
  else -1

/-- Accumulating loop of `parseIntBase`: `v = v*base + d`, rejecting
non-digits, digits out of range for the base, and accumulator values
that have wrapped negative (`if (v < 0) return false;`). -/
def parseIntBaseAux (base : Int) : Str → Int → Option Int
  | [], v => some v
  | c :: cs, v =>
    let d := digitValue c
    if d < 0 ∨ base ≤ d then none
    else
      let v' := wrap64 (v * base + d)
      if v' < 0 then none else parseIntBaseAux base cs v'

/-- `parseIntBase` from scripted_core.hpp: parse a string as a
non-negative integer in the given base; empty strings fail. -/
def parseIntBase (s : Str) (base : Int) : Option Int :=
  if s.isEmpty then none else parseIntBaseAux base s 0

/-- Digit character for a value `< 36`, as produced by the `toBaseN`
loop (`'0' + d` below ten, lowercase `'a' + (d-10)` above). -/
def digitChar (d : Nat) : Char :=
  if d < 10 then Char.ofNat ('0'.toNat + d) else Char.ofNat ('a'.toNat + (d - 10))

/-- Fuelled form of the `toBaseN` digit loop (`while (val>0)`), least
significant digit first; the fuel is instantiated with the value
itself, which bounds the iteration count for any base `≥ 2`. -/
def digitsRevFuel (b : Nat) : Nat → Nat → List Nat
  | 0, _ => []
  | fuel + 1, v => if v = 0 then [] else v % b :: digitsRevFuel b fuel (v / b)

/-- Digits of `v` in base `b`, least significant first. -/
def digitsRev (b v : Nat) : List Nat := digitsRevFuel b v v

/-- `toBaseN` from scripted_core.hpp: render an integer in the given
base (bases outside 2–36 silently replaced by 10), left-padding with
`'0'` up to `width`; zero renders as `max 1 width` zeros; a negative
value gets a leading `'-'` (the loop pushes digits least-significant
first, appends `'-'`, and reverses). -/
def toBaseN (val base width : Int) : Str :=
  let b := if base < 2 ∨ 36 < base then 10 else base
  if val = 0 then List.replicate (max 1 width).toNat '0'
  else
    let digitsMSB := ((digitsRev b.toNat val.natAbs).map digitChar).reverse
    let s := if val < 0 then '-' :: digitsMSB else digitsMSB
    if 0 < width ∧ (s.length : Int) < width then
      List.replicate (width.toNat - s.length) '0' ++ s
    else s

/-- Uppercasing of an ASCII letter, to express case-insensitivity of
digit parsing. -/
def upperChar (c : Char) : Char :=
  if 'a' ≤ c ∧ c ≤ 'z' then Char.ofNat (c.toNat - 32) else c

/-- Value of a digit string read most-significant first, starting from
accumulator `v`: the loop `v = v*base + d` of `parseIntBase`, in `Nat`. -/
def accDigits (b : Nat) (v : Nat) (ds : List Nat) : Nat :=
  ds.foldl (fun a d => a * b + d) v

/-- Value of a digit list read least-significant first. -/
def ofDigitsLSB (b : Nat) : List Nat → Nat
  | [] => 0
  | d :: tl => d + b * ofDigitsLSB b tl

/-- `Config` from scripted_core.hpp.  The C++ field `prefix` is called
`pfx` here because `prefix` is a reserved word in Lean. -/
structure Config where
  pfx : Char := 'x'
  base : Int := 10
  widthBank : Int := 5
  widthReg : Int := 2
  widthAddr : Int := 4
deriving DecidableEq, Repr

/-- The default configuration (all fields defaulted). -/
def defaultConfig : Config := {}

/-- C-locale `isspace`, as used by `trim`. -/
def isSpaceC (c : Char) : Bool :=
  c = ' ' ∨ c = '\t' ∨ c = '\n' ∨ c = Char.ofNat 11 ∨ c = Char.ofNat 12 ∨ c = '\r'

/-- `trim` from scripted_core.hpp: strip leading then trailing
whitespace. -/
def trim (s : Str) : Str :=
  ((s.dropWhile isSpaceC).reverse.dropWhile isSpaceC).reverse

/-- `std::getline` over an `istringstream`: split at `'\n'`, with no
empty trailing line when the text ends in `'\n'`, and no lines at all
for empty text. -/
def getLines : Str → List Str
  | [] => []
  | c :: cs =>
    if c = '\n' then [] :: getLines cs
    else
      match getLines cs with
      | [] => [[c]]
      | l :: ls => (c :: l) :: ls

/-- Join lines, each terminated by `'\n'` — the shape of every text the
serializer emits (each `<<` chunk ends with `"\n"`). -/
def joinLines (L : List Str) : Str := L.foldr (fun l acc => l ++ '\n' :: acc) []

/-- UTF-8 BOM stripping at the head of `parseBankText`. -/
def stripBOM : Str → Str
  | a :: b :: c :: rest =>
    if a = Char.ofNat 0xEF ∧ b = Char.ofNat 0xBB ∧ c = Char.ofNat 0xBF then rest
    else a :: b :: c :: rest
  | s => s

/-- `std::map` modelled as an association list sorted ascending by key;
`mapInsert` keeps the order and overwrites an existing key in place. -/
def mapInsert {α : Type} : List (Int × α) → Int → α → List (Int × α)
  | [], k, v => [(k, v)]
  | (k', v') :: tl, k, v =>
    if k < k' then (k, v) :: (k', v') :: tl
    else if k = k' then (k, v) :: tl
    else (k', v') :: mapInsert tl k v

/-- `std::map::find` / lookup. -/
def mapLookup {α : Type} : List (Int × α) → Int → Option α
  | [], _ => none
  | (k', v') :: tl, k => if k = k' then some v' else mapLookup tl k

/-- `Bank` from scripted_core.hpp: id, title, and
`reg -> (addr -> value)`. -/
structure Bank where
  id : Int := 0
  title : Str := []
  regs : List (Int × List (Int × Str)) := []
deriving DecidableEq, Repr

/-- `outBank.regs[currentReg][addrId] = val`: default-construct the
register map if absent, then insert-or-assign the address. -/
def bankInsert (regs : List (Int × List (Int × Str))) (r a : Int) (v : Str) :
    List (Int × List (Int × Str)) :=
  mapInsert regs r (mapInsert ((mapLookup regs r).getD []) a v)

/-- The `(register, address) → value` mapping of a `Bank`. -/
def bankLookup (b : Bank) (r a : Int) : Option Str :=
  (mapLookup b.regs r).bind fun addrs => mapLookup addrs a

/-- Index of the first occurrence of a character (`std::string::find`). -/
def findIdxOf (c : Char) : Str → Option Nat
  | [] => none
  | a :: tl => if a = c then some 0 else (findIdxOf c tl).map (· + 1)

/-- Index of the last occurrence of a character (`std::string::rfind`). -/
def rfindIdxOf (c : Char) (s : Str) : Option Nat :=
  (findIdxOf c s.reverse).map (fun i => s.length - 1 - i)

/-- Header accumulation loop of `parseBankText`: starting from the
trimmed first header line, append `" " + trim(line)` until the
accumulated text contains `'{'` or the lines run out. -/
def accumHeader (acc : Str) (ls : List Str) : Str :=
  if acc.contains '{' then acc
  else
    match ls with
    | [] => acc
    | l :: tl => accumHeader (acc ++ ' ' :: trim l) tl

/-- Body loop of `parseBankText`: scan lines until one containing `'}'`,
skipping blank lines; an unindented line is a register marker (its
trimmed content must parse in the configured base), an indented line is
`<addr> (TAB|SPACE) <value>` with the leading indentation stripped and
the split at the first TAB if any, else the first space. -/
def bodyLoop (cfg : Config) :
    List Str → Int → List (Int × List (Int × Str)) →
      Except Str (List (Int × List (Int × Str)))
  | [], _, regs => .ok regs
  | s :: rest, currentReg, regs =>
    if s.contains '}' then .ok regs
    else if (trim s).isEmpty then bodyLoop cfg rest currentReg regs
    else if s ≠ [] ∧ s.head? ≠ some '\t' ∧ s.head? ≠ some ' ' then
      match parseIntBase (trim s) cfg.base with
      | none => .error ("invalid register line: ".toList ++ trim s)
      | some regId => bodyLoop cfg rest regId regs
    else
      let t := s.dropWhile (fun c => c = '\t' ∨ c = ' ')
      let sep := match findIdxOf '\t' t with
        | some i => some i
        | none => findIdxOf ' ' t
      let addrTok := match sep with
        | none => trim t
        | some i => trim (t.take i)
      let val : Str := match sep with
        | none => []
        | some i => t.drop (i + 1)
      match parseIntBase addrTok cfg.base with
      | none => .error ("invalid address id: ".toList ++ addrTok)
      | some addrId => bodyLoop cfg rest currentReg (bankInsert regs currentReg addrId val)

/-- `parseBankText` from scripted_core.hpp. -/
def parseBankText (text : Str) (cfg : Config) : Except Str Bank :=
  let content := stripBOM text
  let lines := getLines content
  if lines.isEmpty then .error "empty file".toList
  else
    match lines.dropWhile (fun l => (trim l).isEmpty) with
    | [] => .error "no header found".toList
    | hline :: tl =>
      let headerAccum := accumHeader (trim hline) tl
      if ¬ headerAccum.contains '{' then .error "missing '\x7b' after header".toList
      else
        match findIdxOf '(' headerAccum, rfindIdxOf ')' headerAccum with
        | some lp, some rp =>
          if rp < lp then .error "malformed header: parentheses".toList
          else
            let left0 := trim (headerAccum.take lp)
            let title := trim ((headerAccum.drop (lp + 1)).take (rp - lp - 1))
            let left := if left0 ≠ [] ∧ left0.head? = some cfg.pfx then left0.tail else left0
            match parseIntBase left cfg.base with
            | none => .error "cannot parse bank id".toList
            | some bankId =>
              match (hline :: tl).dropWhile (fun l => ¬ l.contains '{') with
              | [] => .error "missing body start".toList
              | _ :: body =>
                (bodyLoop cfg body 1 []).map fun regs =>
                  { id := bankId, title := title, regs := regs }
        | _, _ => .error "malformed header: parentheses".toList

/-- The serialized lines for one register's addresses:
`"\t" + addr + "\t" + value`. -/
def addrLines (cfg : Config) (addrs : List (Int × Str)) : List Str :=
  addrs.map fun p => '\t' :: toBaseN p.1 cfg.base cfg.widthAddr ++ '\t' :: p.2

/-- `writeBankText` from scripted_core.hpp: header line, then (compact
form) the address lines of register 1 when that is the only register,
otherwise a register marker line before each register's address lines;
closing `"}"`.  Every emitted chunk ends in `"\n"`, so the whole text is
`joinLines` of the line list. -/
def writeBankText (b : Bank) (cfg : Config) : Str :=
  let bankStr := cfg.pfx :: toBaseN b.id cfg.base cfg.widthBank
  let header := bankStr ++ '\t' :: '(' :: (b.title ++ [')', '{'])
  let multi := 1 < b.regs.length ∨
    (b.regs.length = 1 ∧ (b.regs.head?.map Prod.fst) ≠ some 1)
  let bodyLines :=
    if ¬ multi then
      match mapLookup b.regs 1 with
      | some addrs => addrLines cfg addrs
      | none => []
    else
      b.regs.foldr
        (fun p acc => toBaseN p.1 cfg.base cfg.widthReg :: (addrLines cfg p.2 ++ acc)) []
  joinLines (header :: bodyLines ++ [['}']])

/-- `[0-9A-Za-z]`, the character class of every reference-component
capture group (also C-locale `isalnum`). -/
def isAlnum (c : Char) : Bool :=
  ('0' ≤ c ∧ c ≤ '9') ∨ ('A' ≤ c ∧ c ≤ 'Z') ∨ ('a' ≤ c ∧ c ≤ 'z')

/-- `[A-Za-z]`, the two-part pass's prefix-letter class. -/
def isLetterB (c : Char) : Bool := ('A' ≤ c ∧ c ≤ 'Z') ∨ ('a' ≤ c ∧ c ≤ 'z')

/-- `\d`. -/
def isDigitD (c : Char) : Bool := '0' ≤ c ∧ c ≤ '9'

/-- `std::to_string` on an unsigned value. -/
def natDecStr (n : Nat) : Str :=
  if n = 0 then ['0'] else ((digitsRev 10 n).map digitChar).reverse

/-- `std::to_string` on a `long long`. -/
def intToDecStr (k : Int) : Str :=
  if k < 0 then '-' :: natDecStr k.natAbs else natDecStr k.natAbs

/-- Numeric value of a run of decimal digits (as consumed by
`std::stoll` on a `\d+` capture). -/
def natOfDec (s : Str) : Nat := s.foldl (fun a c => a * 10 + (c.toNat - 48)) 0

/-- The on-disk world: a map from path to file contents.  Files present
are readable (the `cannot open` branch of `includeFile` is not
reachable in this model). -/
structure FileSys where
  files : List (Str × Str) := []
deriving DecidableEq, Repr

def fsLookup (fsys : FileSys) : Str → Option Str :=
  go fsys.files
where
  go : List (Str × Str) → Str → Option Str
    | [], _ => none
    | p :: tl, k => if k = p.1 then some p.2 else go tl k

/-- `Workspace` from scripted_core.hpp. -/
structure Workspace where
  banks : List (Int × Bank) := []
  filenames : List (Int × Str) := []
deriving DecidableEq, Repr

/-- `contextFileName`: `files/<prefix><paddedBankId>.txt`. -/
def contextFileName (cfg : Config) (bankId : Int) : Str :=
  "files/".toList ++ cfg.pfx :: (toBaseN bankId cfg.base cfg.widthBank ++ ".txt".toList)

/-- `ensureBankLoadedInWorkspace`: load a bank lazily from its context
file; on a missing file or a parse failure the workspace is unchanged
(the boolean result is discarded by every resolver-path caller —
`(void)ensureBankLoadedInWorkspace(...)`). -/
def ensureBankLoadedInWorkspace (cfg : Config) (fsys : FileSys) (ws : Workspace)
    (bankId : Int) : Workspace :=
  if (mapLookup ws.banks bankId).isSome then ws
  else
    match fsLookup fsys (contextFileName cfg bankId) with
    | none => ws
    | some text =>
      match parseBankText text cfg with
      | .error _ => ws
      | .ok b =>
        { banks := mapInsert ws.banks bankId b,
          filenames := mapInsert ws.filenames bankId (contextFileName cfg bankId) }

/-- `Resolver::getValue`: ensure the bank is loaded (a mutation of the
workspace through `const_cast`), then look the triple up. -/
def getValue (cfg : Config) (fsys : FileSys) (ws : Workspace) (bank reg addr : Int) :
    Option Str × Workspace :=
  let ws1 := ensureBankLoadedInWorkspace cfg fsys ws bank
  match mapLookup ws1.banks bank with
  | none => (none, ws1)
  | some b =>
    match mapLookup b.regs reg with
    | none => (none, ws1)
    | some addrs =>
      match mapLookup addrs addr with
      | none => (none, ws1)
      | some v => (some v, ws1)

/-- `Resolver::includeFile`: contents of `files/<name>`, or the missing
marker. -/
def includeFile (fsys : FileSys) (name : Str) : Str :=
  match fsLookup fsys ("files/".toList ++ name) with
  | none => "[Missing file: ".toList ++ name ++ [']']
  | some content => content

/-- Failures of the embedded resolver: `.oor` models the uncaught
`std::out_of_range` that `std::stoll` throws on an over-long `\d+`
capture in the bare-triad pass; `.fuel` is a modelling artefact (the
C++ recursion carries no such bound) and never occurs with enough
fuel. -/
inductive RErr
  | fuel
  | oor
deriving DecidableEq, Repr

/-- Match of `@file\(([^)]+)\)` at the head of the string:
capture, rest. -/
def matchFileAt (s : Str) : Option (Str × Str) :=
  if s.take 6 = "@file(".toList then
    let rest := s.drop 6
    let name := rest.takeWhile (fun c => ¬(c = ')'))
    if name.isEmpty then none
    else
      match rest.drop name.length with
      | ')' :: after => some (name, after)
      | _ => none
  else none

/-- Match of `r([0-9A-Za-z]+)\.([0-9A-Za-z]+)` at the head:
token, capture 1, capture 2, rest.  The greedy runs are maximal; a
shorter run would put an alphanumeric where `\.` must match. -/
def matchSameAt (s : Str) : Option (Str × Str × Str × Str) :=
  match s with
  | c :: rest =>
    if c = 'r' then
      let A := rest.takeWhile isAlnum
      if A.isEmpty then none
      else
        match rest.drop A.length with
        | '.' :: rest2 =>
          let B := rest2.takeWhile isAlnum
          if B.isEmpty then none
          else some ('r' :: (A ++ '.' :: B), A, B, rest2.drop B.length)
        | _ => none
    else none
  | [] => none

/-- Match of `<pfx>([0-9A-Za-z]+)\.([0-9A-Za-z]+)\.([0-9A-Za-z]+)` at
the head: token, three captures, rest.  The source interpolates the
prefix character into the regex text; the model reads it as a literal
(true for every non-metacharacter prefix, in particular the default
`'x'`). -/
def matchPref3At (pfx : Char) (s : Str) : Option (Str × Str × Str × Str × Str) :=
  match s with
  | c :: rest =>
    if c = pfx then
      let A := rest.takeWhile isAlnum
      if A.isEmpty then none
      else
        match rest.drop A.length with
        | '.' :: rest2 =>
          let B := rest2.takeWhile isAlnum
          if B.isEmpty then none
          else
            match rest2.drop B.length with
            | '.' :: rest3 =>
              let C := rest3.takeWhile isAlnum
              if C.isEmpty then none
              else some (c :: (A ++ '.' :: (B ++ '.' :: C)), A, B, C, rest3.drop C.length)
            | _ => none
        | _ => none
    else none
  | [] => none

/-- Match of `([A-Za-z])([0-9A-Za-z]+)\.([0-9A-Za-z]+)(?!\.)` at the
head: letter, token, capture 2, capture 3, rest.  When the maximal
second run is followed by `'.'` the greedy group backtracks one
character, which satisfies the negative lookahead (the following
character is then alphanumeric); a one-character run cannot backtrack
and the match fails. -/
def matchTwoAt (s : Str) : Option (Char × Str × Str × Str × Str) :=
  match s with
  | c :: rest =>
    if isLetterB c then
      let A := rest.takeWhile isAlnum
      if A.isEmpty then none
      else
        match rest.drop A.length with
        | '.' :: rest2 =>
          let B := rest2.takeWhile isAlnum
          if B.isEmpty then none
          else
            match rest2.drop B.length with
            | '.' :: _ =>
              if B.length < 2 then none
              else
                some (c, c :: (A ++ '.' :: B.dropLast), A, B.dropLast,
                  rest2.drop (B.length - 1))
            | _ => some (c, c :: (A ++ '.' :: B), A, B, rest2.drop B.length)
        | _ => none
    else none
  | [] => none

/-- Match of `(\d+)\.(\d+)\.(\d+)` at the head: token, three captures,
rest. -/
def matchTriAt (s : Str) : Option (Str × Str × Str × Str × Str) :=
  match s with
  | c :: _ =>
    if isDigitD c then
      let A := s.takeWhile isDigitD
      match s.drop A.length with
      | '.' :: rest2 =>
        let B := rest2.takeWhile isDigitD
        if B.isEmpty then none
        else
          match rest2.drop B.length with
          | '.' :: rest3 =>
            let C := rest3.takeWhile isDigitD
            if C.isEmpty then none
            else some (A ++ '.' :: (B ++ '.' :: C), A, B, C, rest3.drop C.length)
          | _ => none
      | _ => none
    else none
  | [] => none

lemma matchFileAt_rest_length {s name after : Str}
    (h : matchFileAt s = some (name, after)) : after.length < s.length := by
  unfold matchFileAt at h
  split at h
  case isFalse => cases h
  case isTrue htake =>
    dsimp only at h
    split at h
    · cases h
    split at h
    case h_2 => cases h
    case h_1 after' heq =>
      have hlen := congrArg List.length heq
      simp only [List.length_drop, List.length_cons] at hlen
      simp only [Option.some.injEq, Prod.mk.injEq] at h
      obtain ⟨-, rfl⟩ := h
      omega

lemma matchSameAt_rest_length {s tok m1 m2 rest : Str}
    (h : matchSameAt s = some (tok, m1, m2, rest)) : rest.length < s.length := by
  unfold matchSameAt at h
  split at h
  next c r0 =>
    split at h
    case isFalse => cases h
    case isTrue =>
      dsimp only at h
      split at h
      · cases h
      split at h
      case h_2 => cases h
      case h_1 rest2 heq =>
        split at h
        · cases h
        simp only [Option.some.injEq, Prod.mk.injEq] at h
        obtain ⟨-, -, -, rfl⟩ := h
        have hlen := congrArg List.length heq
        simp only [List.length_drop, List.length_cons] at hlen
        simp only [List.length_drop, List.length_cons]
        omega
  next => cases h

lemma matchPref3At_rest_length {pfx : Char} {s tok m1 m2 m3 rest : Str}
    (h : matchPref3At pfx s = some (tok, m1, m2, m3, rest)) : rest.length < s.length := by
  unfold matchPref3At at h
  split at h
  next c r0 =>
    split at h
    case isFalse => cases h
    case isTrue =>
      dsimp only at h
      split at h
      · cases h
      split at h
      case h_2 => cases h
      case h_1 rest2 heq =>
        split at h
        · cases h
        split at h
        case h_2 => cases h
        case h_1 rest3 heq2 =>
          split at h
          · cases h
          simp only [Option.some.injEq, Prod.mk.injEq] at h
          obtain ⟨-, -, -, -, rfl⟩ := h
          have hlen := congrArg List.length heq
          have hlen2 := congrArg List.length heq2
          simp only [List.length_drop, List.length_cons] at hlen hlen2
          simp only [List.length_drop, List.length_cons]
          omega
  next => cases h

lemma matchTwoAt_rest_length {s m2 m3 rest : Str} {pf : Char} {tok : Str}
    (h : matchTwoAt s = some (pf, tok, m2, m3, rest)) : rest.length < s.length := by
  unfold matchTwoAt at h
  split at h
  next c r0 =>
    split at h
    case isFalse => cases h
    case isTrue =>
      dsimp only at h
      split at h
      · cases h
      split at h
      case h_2 => cases h
      case h_1 rest2 heq =>
        split at h
        · cases h
        have hlen := congrArg List.length heq
        simp only [List.length_drop, List.length_cons] at hlen
        split at h
        case h_1 =>
          split at h
          · cases h
          simp only [Option.some.injEq, Prod.mk.injEq] at h
          obtain ⟨-, -, -, -, rfl⟩ := h
          simp only [List.length_drop, List.length_cons]
          omega
        case h_2 =>
          simp only [Option.some.injEq, Prod.mk.injEq] at h
          obtain ⟨-, -, -, -, rfl⟩ := h
          simp only [List.length_drop, List.length_cons]
          omega
  next => cases h

lemma matchTriAt_rest_length {s tok m1 m2 m3 rest : Str}
    (h : matchTriAt s = some (tok, m1, m2, m3, rest)) : rest.length < s.length := by
  unfold matchTriAt at h
  split at h
  next c r0 =>
    split at h
    case isFalse => cases h
    case isTrue =>
      dsimp only at h
      split at h
      case h_2 => cases h
      case h_1 rest2 heq =>
        split at h
        · cases h
        split at h
        case h_2 => cases h
        case h_1 rest3 heq2 =>
          split at h
          · cases h
          simp only [Option.some.injEq, Prod.mk.injEq] at h
          obtain ⟨-, -, -, -, rfl⟩ := h
          have hlen := congrArg List.length heq
          have hlen2 := congrArg List.length heq2
          simp only [List.length_drop, List.length_cons] at hlen hlen2
          simp only [List.length_drop, List.length_cons]
          omega
  next => cases h

/-- `std::stoll` on a `\d+` capture: the numeric value, or the
`std::out_of_range` throw when it exceeds `LLONG_MAX`. -/
def stollE (s : Str) : Except RErr Int :=
  if natOfDec s < 2 ^ 63 then .ok ((natOfDec s : Nat) : Int) else .error .oor

/-- Pass 1 of `Resolver::resolve`: replace every `@file(<name>)` by the
(trimmed-name) file's contents; inserted content is not rescanned by
this pass. -/
def passFile (fsys : FileSys) (s : Str) : Str :=
  go s.length s
where
  /-- Structural scanning loop; the fuel argument is the length of the
  scanned string (each step consumes at least one character, so the
  zero-fuel arm is never reached from the wrapper). -/
  go : Nat → Str → Str
    | _, [] => []
    | 0, _ => []
    | n + 1, c :: cs =>
      match matchFileAt (c :: cs) with
      | none => c :: go n cs
      | some (name, after) => includeFile fsys (trim name) ++ go n after

/-- Pass 2 of `Resolver::resolve`: same-bank shorthand
`r<reg>.<addr>`, visited key `to_string(currentBank).to_string(r).to_string(a)`
(decimal canonical), copy-on-recurse of the visited set. -/
def passSame (recurse : Str → Int → List Str → Workspace → Except RErr (Str × Workspace))
    (cfg : Config) (fsys : FileSys) (currentBank : Int) (visited : List Str)
    (s : Str) (ws : Workspace) : Except RErr (Str × Workspace) :=
  go s.length s ws
where
  /-- Structural scanning loop, fuelled by the scanned string's length. -/
  go : Nat → Str → Workspace → Except RErr (Str × Workspace)
  | _, [], ws => .ok ([], ws)
  | 0, _, ws => .ok ([], ws)
  | n + 1, c :: cs, ws =>
    match matchSameAt (c :: cs) with
    | none =>
      match go n cs ws with
      | .error e => .error e
      | .ok (out, ws') => .ok (c :: out, ws')
    | some (tok, m1, m2, rest) =>
      let step : Except RErr (Str × Workspace) :=
        match parseIntBase m1 cfg.base, parseIntBase m2 cfg.base with
        | some r, some a =>
          let key := intToDecStr currentBank ++ '.' :: (intToDecStr r ++ '.' :: intToDecStr a)
          if key ∈ visited then .ok ("[Circular Ref: ".toList ++ tok ++ [']'], ws)
          else
            match getValue cfg fsys ws currentBank r a with
            | (none, ws1) => .ok ("[Missing ".toList ++ tok ++ [']'], ws1)
            | (some v, ws1) => recurse v currentBank (key :: visited) ws1
        | _, _ => .ok ("[BadRef ".toList ++ tok ++ [']'], ws)
      match step with
      | .error e => .error e
      | .ok (piece, ws1) =>
        match go n rest ws1 with
        | .error e => .error e
        | .ok (out, ws2) => .ok (piece ++ out, ws2)

/-- Pass 3 of `Resolver::resolve`: prefixed three-part
`<pfx><bank>.<reg>.<addr>`; visited key = prefix character plus the
components exactly as spelled in the token; a token with an unparseable
component is copied through unchanged. -/
def passPref3 (recurse : Str → Int → List Str → Workspace → Except RErr (Str × Workspace))
    (cfg : Config) (fsys : FileSys) (visited : List Str)
    (s : Str) (ws : Workspace) : Except RErr (Str × Workspace) :=
  go s.length s ws
where
  /-- Structural scanning loop, fuelled by the scanned string's length. -/
  go : Nat → Str → Workspace → Except RErr (Str × Workspace)
  | _, [], ws => .ok ([], ws)
  | 0, _, ws => .ok ([], ws)
  | n + 1, c :: cs, ws =>
    match matchPref3At cfg.pfx (c :: cs) with
    | none =>
      match go n cs ws with
      | .error e => .error e
      | .ok (out, ws') => .ok (c :: out, ws')
    | some (tok, m1, m2, m3, rest) =>
      let step : Except RErr (Str × Workspace) :=
        match parseIntBase m1 cfg.base, parseIntBase m2 cfg.base, parseIntBase m3 cfg.base with
        | some b, some r, some a =>
          let key := cfg.pfx :: (m1 ++ '.' :: (m2 ++ '.' :: m3))
          if key ∈ visited then .ok ("[Circular Ref: ".toList ++ tok ++ [']'], ws)
          else
            match getValue cfg fsys ws b r a with
            | (none, ws1) => .ok ("[Missing ".toList ++ tok ++ [']'], ws1)
            | (some v, ws1) => recurse v b (key :: visited) ws1
        | _, _, _ => .ok (tok, ws)
      match step with
      | .error e => .error e
      | .ok (piece, ws1) =>
        match go n rest ws1 with
        | .error e => .error e
        | .ok (out, ws2) => .ok (piece ++ out, ws2)

/-- Pass 4 of `Resolver::resolve`: two-part prefixed `<pfx><bank>.<addr>`
(always register 1); a match whose leading letter is not the configured
prefix is copied through; the visited key is the matched letter plus
the components as spelled.  `getValueTwoPart` is `getValue` at
register 1 (its extra `ensureBankLoadedInWorkspace` call is idempotent). -/
def passTwo (recurse : Str → Int → List Str → Workspace → Except RErr (Str × Workspace))
    (cfg : Config) (fsys : FileSys) (visited : List Str)
    (s : Str) (ws : Workspace) : Except RErr (Str × Workspace) :=
  go s.length s ws
where
  /-- Structural scanning loop, fuelled by the scanned string's length. -/
  go : Nat → Str → Workspace → Except RErr (Str × Workspace)
  | _, [], ws => .ok ([], ws)
  | 0, _, ws => .ok ([], ws)
  | n + 1, c :: cs, ws =>
    match matchTwoAt (c :: cs) with
    | none =>
      match go n cs ws with
      | .error e => .error e
      | .ok (out, ws') => .ok (c :: out, ws')
    | some (pf, tok, m2, m3, rest) =>
      let step : Except RErr (Str × Workspace) :=
        if pf ≠ cfg.pfx then .ok (tok, ws)
        else
          match parseIntBase m2 cfg.base, parseIntBase m3 cfg.base with
          | some b, some a =>
            let key := pf :: (m2 ++ '.' :: m3)
            if key ∈ visited then .ok ("[Circular Ref: ".toList ++ tok ++ [']'], ws)
            else
              match getValue cfg fsys ws b 1 a with
              | (none, ws1) => .ok ("[Missing ".toList ++ tok ++ [']'], ws1)
              | (some v, ws1) => recurse v b (key :: visited) ws1
          | _, _ => .ok ("[BadRef ".toList ++ tok ++ [']'], ws)
      match step with
      | .error e => .error e
      | .ok (piece, ws1) =>
        match go n rest ws1 with
        | .error e => .error e
        | .ok (out, ws2) => .ok (piece ++ out, ws2)

/-- Pass 5 of `Resolver::resolve`: bare numeric triad
`<digits>.<digits>.<digits>` (decimal only), skipped when the character
immediately preceding the match is alphanumeric; components go through
`std::stoll`, whose `std::out_of_range` throw propagates; visited key
is the decimal canonical `b.r.a`. -/
def passTri (recurse : Str → Int → List Str → Workspace → Except RErr (Str × Workspace))
    (cfg : Config) (fsys : FileSys) (visited : List Str)
    (prev : Option Char) (s : Str) (ws : Workspace) : Except RErr (Str × Workspace) :=
  go s.length prev s ws
where
  /-- Structural scanning loop, fuelled by the scanned string's length. -/
  go : Nat → Option Char → Str → Workspace → Except RErr (Str × Workspace)
  | _, _, [], ws => .ok ([], ws)
  | 0, _, _, ws => .ok ([], ws)
  | n + 1, prev, c :: cs, ws =>
    match matchTriAt (c :: cs) with
    | none =>
      match go n (some c) cs ws with
      | .error e => .error e
      | .ok (out, ws') => .ok (c :: out, ws')
    | some (tok, m1, m2, m3, rest) =>
      if (match prev with | some p => isAlnum p | none => false) then
        match go n tok.getLast? rest ws with
        | .error e => .error e
        | .ok (out, ws') => .ok (tok ++ out, ws')
      else
        let step : Except RErr (Str × Workspace) :=
          match stollE m1 with
          | .error e => .error e
          | .ok b =>
            match stollE m2 with
            | .error e => .error e
            | .ok r =>
              match stollE m3 with
              | .error e => .error e
              | .ok a =>
                let key := intToDecStr b ++ '.' :: (intToDecStr r ++ '.' :: intToDecStr a)
                if key ∈ visited then .ok ("[Circular Ref: ".toList ++ tok ++ [']'], ws)
                else
                  match getValue cfg fsys ws b r a with
                  | (none, ws1) => .ok ("[Missing ".toList ++ tok ++ [']'], ws1)
                  | (some v, ws1) => recurse v b (key :: visited) ws1
        match step with
        | .error e => .error e
        | .ok (piece, ws1) =>
          match go n tok.getLast? rest ws1 with
          | .error e => .error e
          | .ok (out, ws2) => .ok (piece ++ out, ws2)

/-- `Resolver::resolve`: the five passes in order, each over the output
of the previous one, threading the lazily-loading workspace; recursion
on referenced values goes through the fuel-decremented `resolve`. -/
def resolve (cfg : Config) (fsys : FileSys) :
    Nat → Str → Int → List Str → Workspace → Except RErr (Str × Workspace)
  | 0, _, _, _, _ => .error .fuel
  | fuel + 1, input, currentBank, visited, ws =>
    let s1 := passFile fsys input
    match passSame (resolve cfg fsys fuel) cfg fsys currentBank visited s1 ws with
    | .error e => .error e
    | .ok (s2, ws2) =>
      match passPref3 (resolve cfg fsys fuel) cfg fsys visited s2 ws2 with
      | .error e => .error e
      | .ok (s3, ws3) =>
        match passTwo (resolve cfg fsys fuel) cfg fsys visited s3 ws3 with
        | .error e => .error e
        | .ok (s4, ws4) =>
          match passTri (resolve cfg fsys fuel) cfg fsys visited none s4 ws4 with
          | .error e => .error e
          | .ok (s5, ws5) => .ok (s5, ws5)

/-! ### Kernel (scripted_kernel.hpp)

The POSIX branch is modelled: `kWindows = false`, so the manifest's
`entry_lin` is the entry command.  The filesystem is the same `FileSys`
path-to-contents map; `fs::absolute` is the identity (paths are kept
process-root relative), `fs::create_directories` is a no-op (the map
holds only files), and `std::ofstream` open failures (the
`"Cannot write ..."` branches) are outside the model: writes always
succeed.  `discoverPlugins` reads the disk at construction time; the
manifest list is a parameter here. -/

/-- Uppercase hexadecimal digit (for `jsonEscape`'s `\u%04X`). -/
def hexDigitU (n : Nat) : Char :=
  if n < 10 then Char.ofNat (48 + n) else Char.ofNat (55 + n)

/-- One character of `jsonEscape` from scripted_kernel.hpp. -/
def jsonEscapeChar (c : Char) : Str :=
  if c = '\\' then ['\\', '\\']
  else if c = '\"' then ['\\', '\"']
  else if c.toNat = 8 then ['\\', 'b']
  else if c.toNat = 12 then ['\\', 'f']
  else if c.toNat = 10 then ['\\', 'n']
  else if c.toNat = 13 then ['\\', 'r']
  else if c.toNat = 9 then ['\\', 't']
  else if c.toNat < 32 then
    ['\\', 'u', '0', '0', hexDigitU (c.toNat / 16), hexDigitU (c.toNat % 16)]
  else [c]

/-- `jsonEscape` from scripted_kernel.hpp. -/
def jsonEscape (s : Str) : Str := s.foldr (fun c acc => jsonEscapeChar c ++ acc) []

/-- `PluginManifest` from scripted_kernel.hpp. -/
structure PluginManifest where
  name : Str
  entry_win : Str
  entry_lin : Str
  dir : Str
deriving DecidableEq, Repr

/-- `Kernel::find`: first manifest whose name matches. -/
def findPlugin : List PluginManifest → Str → Option PluginManifest
  | [], _ => none
  | p :: ps, n => if p.name = n then some p else findPlugin ps n

/-- `scripted::kWindows` on the modelled (POSIX) platform. -/
def kWindows : Bool := false

/-- `writeTextFile`: insert or overwrite a path, keeping its position. -/
def fsInsertGo (p v : Str) : List (Str × Str) → List (Str × Str)
  | [] => [(p, v)]
  | q :: tl => if p = q.1 then (p, v) :: tl else q :: fsInsertGo p v tl

def fsInsert (fsys : FileSys) (p v : Str) : FileSys :=
  { files := fsInsertGo p v fsys.files }

/-- `ws.banks[bank]` (std::map `operator[]`): default-constructs an
empty bank when the key is absent.  `Kernel::run` reads `.title`
through it while building `input.json`. -/
def wsIndexTitle (ws : Workspace) (bank : Int) : Str × Workspace :=
  match mapLookup ws.banks bank with
  | some b => (b.title, ws)
  | none => ([], { ws with banks := mapInsert ws.banks bank {} })

/-- `files/out/plugins/<bankStr>/r<regStr>a<addrStr>/<name>`. -/
def kOutdir (cfg : Config) (name : Str) (bank reg addr : Int) : Str :=
  "files/out/plugins/".toList ++ (cfg.pfx :: toBaseN bank cfg.base cfg.widthBank)
    ++ '/' :: 'r' :: toBaseN reg cfg.base cfg.widthReg
    ++ 'a' :: toBaseN addr cfg.base cfg.widthAddr ++ '/' :: name

/-- The `stdin_json` local of `Kernel::run`: `"{}"` by default; an
existing file's contents, else the argument taken as inline JSON. -/
def kStdinJson (fs1 : FileSys) (p : Str) : Str :=
  if p.isEmpty then "\x7b\x7d".toList
  else
    match fsLookup fs1 p with
    | some c => c
    | none => p

/-- The `input.json` text assembled by `Kernel::run`. -/
def kInputStr (bankStr regStr addrStr title codeFile stdin_json : Str) : Str :=
  "\x7b\n  \"bank\": \"".toList ++ jsonEscape bankStr
    ++ "\",\n  \"reg\": \"".toList ++ jsonEscape regStr
    ++ "\",\n  \"addr\": \"".toList ++ jsonEscape addrStr
    ++ "\",\n  \"title\": \"".toList ++ jsonEscape title
    ++ "\",\n  \"code_file\": \"".toList ++ jsonEscape codeFile
    ++ "\",\n  \"stdin\": ".toList
    ++ (if stdin_json.isEmpty then "\x7b\x7d".toList else stdin_json)
    ++ "\n\x7d\n".toList

/-- The filesystem handed to the child process: the input filesystem
after `code.txt` and then `input.json` are written. -/
def kFs2 (cfg : Config) (name : Str) (bank reg addr : Int) (sj code title : Str)
    (fsys : FileSys) : FileSys :=
  let outdir := kOutdir cfg name bank reg addr
  let fs1 := fsInsert fsys (outdir ++ "/code.txt".toList) code
  fsInsert fs1 (outdir ++ "/input.json".toList)
    (kInputStr (cfg.pfx :: toBaseN bank cfg.base cfg.widthBank)
      (toBaseN reg cfg.base cfg.widthReg) (toBaseN addr cfg.base cfg.widthAddr)
      title (outdir ++ "/code.txt".toList) (kStdinJson fs1 sj))

/-- Result of `Kernel::run`: the boolean return, the two out-parameters
(`out_json` is `none` on the failure branches, where the C++ leaves the
caller's string untouched), and the final filesystem and workspace. -/
structure RunResult where
  ok : Bool
  out_json : Option Str
  out_report : Str
  fsys : FileSys
  ws : Workspace
deriving DecidableEq, Repr

/-- `Kernel::run` (POSIX branch).  `exec` is the oracle for
`std::system`: from the filesystem at invocation time to the child's
exit status and the filesystem afterwards (covering the shell's
`run.log`/`run.err` redirections and whatever the plugin writes).  A
`.error` result is the uncaught exception escaping from
`Resolver::resolve` (`.fuel` being the modelling artefact). -/
def kernelRun (cfg : Config) (plugins : List PluginManifest) (fuel : Nat)
    (exec : FileSys → Int × FileSys) (name : Str) (bank reg addr : Int)
    (stdin_json_or_path : Str) (fsys : FileSys) (ws : Workspace) :
    Except RErr RunResult :=
  match findPlugin plugins name with
  | none => .ok ⟨false, none, "Plugin not found: ".toList ++ name, fsys, ws⟩
  | some P =>
    let ws0 := ensureBankLoadedInWorkspace cfg fsys ws bank
    match getValue cfg fsys ws0 bank reg addr with
    | (none, ws1) =>
      .ok ⟨false, none,
        "No value at reg ".toList ++ intToDecStr reg ++ " addr ".toList ++ intToDecStr addr,
        fsys, ws1⟩
    | (some raw, ws1) =>
      match resolve cfg fsys fuel raw bank [] ws1 with
      | .error e => .error e
      | .ok (code, ws2) =>
        let outdir := kOutdir cfg name bank reg addr
        let entry := if kWindows then P.entry_win else P.entry_lin
        if entry.isEmpty then
          .ok ⟨false, none, "Plugin entry not set in manifest.".toList, fsys, ws2⟩
        else
          let entryPath := P.dir ++ '/' :: entry
          let outputFile := outdir ++ "/output.json".toList
          let logFile := outdir ++ "/run.log".toList
          let errFile := outdir ++ "/run.err".toList
          if (fsLookup fsys entryPath).isNone then
            .ok ⟨false, none, "Entry not found: ".toList ++ entryPath, fsys, ws2⟩
          else
            let tw := wsIndexTitle ws2 bank
            let fs2 := kFs2 cfg name bank reg addr stdin_json_or_path code tw.1 fsys
            let r := exec fs2
            match fsLookup r.2 outputFile with
            | none =>
              let errtxt := (fsLookup r.2 errFile).getD []
              .ok ⟨false, none,
                "Plugin did not produce output.json. Exit=".toList ++ intToDecStr r.1
                  ++ (if errtxt.isEmpty then []
                      else "\nerr:\n".toList ++ errtxt),
                r.2, tw.2⟩
            | some outContent =>
              let logtxt := (fsLookup r.2 logFile).getD []
              let errtxt := (fsLookup r.2 errFile).getD []
              .ok ⟨true, some outContent,
                "exit=".toList ++ intToDecStr r.1 ++ '\n'
                  :: ((if logtxt.isEmpty then []
                       else "log:\n".toList ++ logtxt ++ ['\n'])
                    ++ (if errtxt.isEmpty then []
                        else "stderr:\n".toList ++ errtxt ++ ['\n'])),
                r.2, tw.2⟩

example : toBaseN 255 16 4 = "00ff".toList := by decide
example : toBaseN 0 10 5 = "00000".toList := by decide
example : toBaseN 7 2 0 = "111".toList := by decide
example : parseIntBase "00ff".toList 16 = some 255 := by decide
example : parseIntBase "FF".toList 16 = some 255 := by decide
example : parseIntBase "".toList 16 = none := by decide
example : parseIntBase "1z".toList 10 = none := by decide
example : toBaseN 5 1 3 = "005".toList := by decide
example : toBaseN 5 37 3 = "005".toList := by decide

lemma wrap64_eq_of_lt {x : Int} (h0 : 0 ≤ x) (h : x < 2 ^ 63) : wrap64 x = x := by
  have : (2:Int) ^ 63 = 9223372036854775808 := by norm_num
  simp only [wrap64]
  omega

lemma digitValue_digitChar {d : Nat} (hd : d < 36) :
    digitValue (digitChar d) = (d : Int) := by
  interval_cases d <;> decide

lemma digitValue_upper_digitChar {d : Nat} (hd : d < 36) :
    digitValue (upperChar (digitChar d)) = (d : Int) := by
  interval_cases d <;> decide

lemma accDigits_nil (b v : Nat) : accDigits b v [] = v := rfl

lemma accDigits_cons (b v d : Nat) (tl : List Nat) :
    accDigits b v (d :: tl) = accDigits b (v * b + d) tl := rfl

lemma accDigits_append (b v : Nat) (l₁ l₂ : List Nat) :
    accDigits b v (l₁ ++ l₂) = accDigits b (accDigits b v l₁) l₂ := by
  simp [accDigits, List.foldl_append]

lemma le_accDigits (b : Nat) (hb : 1 ≤ b) (v : Nat) (ds : List Nat) :
    v ≤ accDigits b v ds := by
  induction ds generalizing v with
  | nil => exact le_rfl
  | cons d tl ih =>
    rw [accDigits_cons]
    calc v ≤ v * b + d := by
              have := Nat.le_mul_of_pos_right v (show 0 < b by omega)
              omega
         _ ≤ accDigits b (v * b + d) tl := ih _

/-- Main loop correctness of `parseIntBase`: on a digit list encoded by
any digit-to-character map `f` agreeing with `digitValue`, the loop
computes the base-`b` value, provided that value stays below `2^63`
(no wrap and no negative check firing). -/
lemma parseIntBaseAux_digits (b : Nat) (hb2 : 2 ≤ b) (f : Nat → Char)
    (hf : ∀ d, d < b → digitValue (f d) = (d : Int)) :
    ∀ (ds : List Nat) (v : Nat), (∀ d ∈ ds, d < b) →
      accDigits b v ds < 2 ^ 63 →
      parseIntBaseAux (b : Int) (ds.map f) (v : Int) = some ((accDigits b v ds : Nat) : Int) := by
  intro ds
  induction ds with
  | nil => intro v _ _; simp [parseIntBaseAux, accDigits_nil]
  | cons d tl ih =>
    intro v hds hacc
    have hd : d < b := hds d (List.mem_cons_self d tl)
    have hstep : v * b + d ≤ accDigits b v (d :: tl) := by
      rw [accDigits_cons]; exact le_accDigits b (by omega) _ tl
    have hlt : v * b + d < 2 ^ 63 := lt_of_le_of_lt hstep hacc
    rw [List.map_cons]
    rw [show parseIntBaseAux (b : Int) (f d :: tl.map f) (v : Int) =
        (let dv := digitValue (f d);
         if dv < 0 ∨ (b : Int) ≤ dv then none
         else
           let v' := wrap64 ((v : Int) * b + dv);
           if v' < 0 then none else parseIntBaseAux (b : Int) (tl.map f) v') from rfl]
    rw [hf d hd]
    have hcond : ¬((d : Int) < 0 ∨ (b : Int) ≤ (d : Int)) := by
      push_neg
      exact ⟨Int.ofNat_nonneg d, by exact_mod_cast hd⟩
    rw [if_neg hcond]
    have hcast : (v : Int) * (b : Int) + (d : Int) = ((v * b + d : Nat) : Int) := by
      push_cast; ring
    have hwrap : wrap64 ((v : Int) * b + d) = ((v * b + d : Nat) : Int) := by
      rw [hcast]
      exact wrap64_eq_of_lt (Int.ofNat_nonneg _) (by exact_mod_cast hlt)
    simp only [hwrap]
    rw [if_neg (by exact not_lt.mpr (Int.ofNat_nonneg _))]
    rw [accDigits_cons] at hacc ⊢
    exact ih (v * b + d) (fun x hx => hds x (List.mem_cons_of_mem d hx)) hacc

lemma ofDigitsLSB_digitsRevFuel (b : Nat) (hb : 2 ≤ b) :
    ∀ (fuel v : Nat), v ≤ fuel → ofDigitsLSB b (digitsRevFuel b fuel v) = v := by
  intro fuel
  induction fuel with
  | zero => intro v hv; interval_cases v; rfl
  | succ n ih =>
    intro v hv
    by_cases h0 : v = 0
    · simp [digitsRevFuel, h0, ofDigitsLSB]
    · have hdiv : v / b ≤ n := by
        have : v / b < v := Nat.div_lt_self (Nat.pos_of_ne_zero h0) (by omega)
        omega
      simp only [digitsRevFuel, if_neg h0, ofDigitsLSB]
      rw [ih _ hdiv]
      exact Nat.mod_add_div v b

lemma digitsRevFuel_lt (b : Nat) (hb : 1 ≤ b) :
    ∀ (fuel v : Nat), ∀ d ∈ digitsRevFuel b fuel v, d < b := by
  intro fuel
  induction fuel with
  | zero => intro v d hd; simp [digitsRevFuel] at hd
  | succ n ih =>
    intro v d hd
    by_cases h0 : v = 0
    · simp [digitsRevFuel, h0] at hd
    · simp only [digitsRevFuel, if_neg h0, List.mem_cons] at hd
      rcases hd with h | h
      · subst h; exact Nat.mod_lt v (by omega)
      · exact ih _ d h

lemma digitsRevFuel_ne_nil (b : Nat) {fuel v : Nat} (hv : 0 < v) (hfuel : v ≤ fuel) :
    digitsRevFuel b fuel v ≠ [] := by
  cases fuel with
  | zero => omega
  | succ n =>
    have : v ≠ 0 := by omega
    simp [digitsRevFuel, this]

lemma accDigits_reverse (b v : Nat) (l : List Nat) :
    accDigits b v l.reverse = v * b ^ l.length + ofDigitsLSB b l := by
  induction l generalizing v with
  | nil => simp [accDigits_nil, ofDigitsLSB]
  | cons d tl ih =>
    simp only [List.reverse_cons, accDigits_append, ih, accDigits_cons, accDigits_nil,
      ofDigitsLSB, List.length_cons]
    ring

lemma accDigits_zeros (b : Nat) (k : Nat) :
    accDigits b 0 (List.replicate k 0) = 0 := by
  induction k with
  | zero => rfl
  | succ n ih => simpa [List.replicate_succ, accDigits_cons] using ih

lemma parseIntBase_map (B : Nat) (hb2 : 2 ≤ B) (f : Nat → Char)
    (hf : ∀ d, d < B → digitValue (f d) = (d : Int))
    (ds : List Nat) (hne : ds ≠ []) (hds : ∀ d ∈ ds, d < B)
    (hbound : accDigits B 0 ds < 2 ^ 63) :
    parseIntBase (ds.map f) (B : Int) = some ((accDigits B 0 ds : Nat) : Int) := by
  have hcons : ds.map f ≠ [] := by simpa using hne
  obtain ⟨a, tl, heq⟩ := List.exists_cons_of_ne_nil hcons
  have hmain := parseIntBaseAux_digits B hb2 f hf ds 0 hds hbound
  rw [heq] at hmain ⊢
  simpa [parseIntBase] using hmain

/-- Shape of `toBaseN` on a non-negative value with a base in range:
a digit-character encoding of a digit list whose base-`B` value is the
input, of length at least the requested width. -/
lemma toBaseN_shape (base width : Int) (v : Nat)
    (hb2 : 2 ≤ base) (hb36 : base ≤ 36) :
    ∃ ds : List Nat, toBaseN (v : Int) base width = ds.map digitChar ∧
      ds ≠ [] ∧ (∀ d ∈ ds, d < base.toNat) ∧ accDigits base.toNat 0 ds = v ∧
      width ≤ ((ds.map digitChar).length : Int) := by
  have hBpos : 0 < base.toNat := by omega
  have hB2 : 2 ≤ base.toNat := by omega
  have hclamp : ¬(base < 2 ∨ 36 < base) := by omega
  have hd0 : digitChar 0 = '0' := by decide
  rcases Nat.eq_zero_or_pos v with h0 | hpos
  · subst h0
    have hK : 1 ≤ (max 1 width).toNat := by
      have := le_max_left 1 width
      omega
    refine ⟨List.replicate (max 1 width).toNat 0, ?_, ?_, ?_, ?_, ?_⟩
    · simp [toBaseN, List.map_replicate, hd0]
    · intro h
      have := congrArg List.length h
      simp at this
    · intro d hd
      rw [List.eq_of_mem_replicate hd]
      exact hBpos
    · simp [accDigits_zeros]
    · simp only [List.map_replicate, List.length_replicate]
      have h1 : ((max 1 width).toNat : Int) = max 1 width :=
        Int.toNat_of_nonneg (by have := le_max_left 1 width; omega)
      rw [h1]
      exact le_max_right 1 width
  · have hne0 : ((v : Nat) : Int) ≠ 0 := by exact_mod_cast hpos.ne'
    have hnneg : ¬((v : Int) < 0) := not_lt.mpr (Int.ofNat_nonneg v)
    set B := base.toNat with hB
    set m := (digitsRev B v).reverse with hm
    have hmne : m ≠ [] := by
      rw [hm]
      simp only [ne_eq, List.reverse_eq_nil_iff]
      exact digitsRevFuel_ne_nil B hpos le_rfl
    have hmlt : ∀ d ∈ m, d < B := by
      intro d hd
      rw [hm, List.mem_reverse] at hd
      exact digitsRevFuel_lt B (by omega) v v d hd
    have hacc : ∀ k, accDigits B 0 (List.replicate k 0 ++ m) = v := by
      intro k
      rw [accDigits_append, accDigits_zeros, hm, accDigits_reverse, zero_mul, zero_add]
      exact ofDigitsLSB_digitsRevFuel B hB2 v v le_rfl
    have hunfold : toBaseN (v : Int) base width =
        (if 0 < width ∧ ((m.map digitChar).length : Int) < width then
          List.replicate (width.toNat - (m.map digitChar).length) '0' ++ m.map digitChar
        else m.map digitChar) := by
      simp only [toBaseN, if_neg hclamp, if_neg hne0, if_neg hnneg, Int.natAbs_ofNat,
        hm, List.map_reverse, digitsRev, ← hB]
    by_cases hpad : 0 < width ∧ ((m.map digitChar).length : Int) < width
    · refine ⟨List.replicate (width.toNat - (m.map digitChar).length) 0 ++ m, ?_, ?_, ?_, ?_, ?_⟩
      · rw [hunfold, if_pos hpad, List.map_append, List.map_replicate, hd0]
      · intro h
        exact hmne (List.append_eq_nil.mp h).2
      · intro d hd
        rcases List.mem_append.mp hd with h | h
        · rw [List.eq_of_mem_replicate h]; exact hBpos
        · exact hmlt d h
      · exact hacc _
      · obtain ⟨hw, hlen⟩ := hpad
        simp only [List.length_map, List.length_append, List.length_replicate] at *
        omega
    · refine ⟨m, ?_, hmne, hmlt, ?_, ?_⟩
      · rw [hunfold, if_neg hpad]
      · have := hacc 0
        simpa using this
      · rw [not_and_or] at hpad
        simp only [List.length_map] at *
        omega

/-- Round-trip core, shared by the format lemmas: rendering a
representable non-negative value and parsing it back is the identity. -/
lemma parse_toBaseN (base width : Int) (v : Nat)
    (hb2 : 2 ≤ base) (hb36 : base ≤ 36) (hv : v < 2 ^ 63) :
    parseIntBase (toBaseN (v : Int) base width) base = some ((v : Nat) : Int) := by
  obtain ⟨ds, hds_eq, hne, hlt, hacc, -⟩ := toBaseN_shape base width v hb2 hb36
  have hBcast : ((base.toNat : Nat) : Int) = base := Int.toNat_of_nonneg (by omega)
  have hB2 : 2 ≤ base.toNat := by omega
  have hB36 : base.toNat ≤ 36 := by omega
  rw [hds_eq, ← hBcast]
  rw [parseIntBase_map base.toNat hB2 digitChar
    (fun d hd => digitValue_digitChar (lt_of_lt_of_le hd hB36)) ds hne hlt
    (by rw [hacc]; exact hv)]
  rw [hacc]

/-- C4 (confirmed): for every base in 2–36, every minimum width, and
every non-negative `v` representable as a `long long`
(`v < 2^63`), `parseIntBase (toBaseN v base width) base` succeeds and
returns exactly `v`; the rendering is at least `width` characters long
(left-padded, never truncated), and parsing is case-insensitive: the
uppercased rendering parses to the same value. -/
theorem c4_parse_render_roundtrip (base width : Int) (v : Nat)
    (hb2 : 2 ≤ base) (hb36 : base ≤ 36) (hv : (v : Int) < 2 ^ 63) :
    parseIntBase (toBaseN (v : Int) base width) base = some (v : Int) ∧
    parseIntBase ((toBaseN (v : Int) base width).map upperChar) base = some (v : Int) ∧
    width ≤ ((toBaseN (v : Int) base width).length : Int) := by
  obtain ⟨ds, hds_eq, hne, hlt, hacc, hlen⟩ := toBaseN_shape base width v hb2 hb36
  have hBcast : ((base.toNat : Nat) : Int) = base := Int.toNat_of_nonneg (by omega)
  have hB2 : 2 ≤ base.toNat := by omega
  have hB36 : base.toNat ≤ 36 := by omega
  have hvlt : v < 2 ^ 63 := by exact_mod_cast hv
  refine ⟨?_, ?_, ?_⟩
  · exact parse_toBaseN base width v hb2 hb36 hvlt
  · rw [hds_eq, List.map_map, ← hBcast]
    rw [parseIntBase_map base.toNat hB2 (upperChar ∘ digitChar)
      (fun d hd => by
        simpa using digitValue_upper_digitChar (lt_of_lt_of_le hd hB36)) ds hne hlt
      (by rw [hacc]; exact hvlt)]
    rw [hacc]
  · rw [hds_eq]
    exact hlen

/-- Witness for C4 at base 16, width 4, value 255. -/
theorem c4_parse_render_roundtrip_witness :
    (2 : Int) ≤ 16 ∧ (16 : Int) ≤ 36 ∧ ((255 : Nat) : Int) < 2 ^ 63 ∧
    parseIntBase (toBaseN ((255 : Nat) : Int) 16 4) 16 = some ((255 : Nat) : Int) :=
  ⟨by norm_num, by norm_num, by norm_num,
    (c4_parse_render_roundtrip 16 4 255 (by norm_num) (by norm_num) (by norm_num)).1⟩

/-- C10 (implicit claim): `toBaseN` silently replaces a base outside
2–36 by 10, while `parseIntBase` applies no such range check (shown by
a base-37 parse that succeeds on the digit `'z'`, impossible under a
clamp to base 10). -/
theorem c10_toBaseN_base_clamped (v base width : Int) (h : base < 2 ∨ 36 < base) :
    toBaseN v base width = toBaseN v 10 width ∧
    parseIntBase ['z'] 37 = some 35 ∧ parseIntBase ['z'] 10 = none := by
  refine ⟨?_, by decide, by decide⟩
  simp only [toBaseN, if_pos h]
  norm_num

/-- Witness for C10 at base 1. -/
theorem c10_toBaseN_base_clamped_witness :
    ((1 : Int) < 2 ∨ (36 : Int) < 1) ∧ toBaseN 255 1 4 = toBaseN 255 10 4 ∧
    toBaseN 255 1 4 = "0255".toList :=
  ⟨Or.inl (by norm_num), (c10_toBaseN_base_clamped 255 1 4 (Or.inl (by norm_num))).1,
    by decide⟩

lemma digitChar_good {d : Nat} (hd : d < 36) :
    isSpaceC (digitChar d) = false ∧ digitChar d ≠ '(' ∧ digitChar d ≠ ')' ∧
    digitChar d ≠ '{' ∧ digitChar d ≠ '}' ∧ digitChar d ≠ '\n' ∧
    digitChar d ≠ '\t' ∧ digitChar d ≠ ' ' ∧ digitChar d ≠ Char.ofNat 0xBB := by
  interval_cases d <;> decide

/-- All characters of a rendered non-negative identifier are digit
characters, hence harmless for the line-oriented format. -/
lemma toBaseN_good (base width : Int) (v : Nat) (hb2 : 2 ≤ base) (hb36 : base ≤ 36) :
    toBaseN (v : Int) base width ≠ [] ∧
    ∀ c ∈ toBaseN (v : Int) base width,
      isSpaceC c = false ∧ c ≠ '(' ∧ c ≠ ')' ∧ c ≠ '{' ∧ c ≠ '}' ∧ c ≠ '\n' ∧
      c ≠ '\t' ∧ c ≠ ' ' ∧ c ≠ Char.ofNat 0xBB := by
  obtain ⟨ds, heq, hne, hlt, -, -⟩ := toBaseN_shape base width v hb2 hb36
  rw [heq]
  refine ⟨by simpa using hne, ?_⟩
  intro c hc
  obtain ⟨d, hd, rfl⟩ := List.mem_map.mp hc
  exact digitChar_good (lt_of_lt_of_le (hlt d hd) (by omega))

lemma contains_eq_false {l : Str} {c : Char} (h : c ∉ l) : l.contains c = false := by
  simpa using h

lemma contains_eq_true {l : Str} {c : Char} (h : c ∈ l) : l.contains c = true := by
  simpa using h

lemma dropWhile_eq_self_of_head {p : Char → Bool} {l : Str}
    (h : ∀ c, l.head? = some c → p c = false) : l.dropWhile p = l := by
  cases l with
  | nil => rfl
  | cons a tl => simp [List.dropWhile_cons, h a rfl]

lemma mem_dropWhile_of_mem {p : Char → Bool} {l : Str} {c : Char}
    (hc : c ∈ l) (hp : p c = false) : c ∈ l.dropWhile p := by
  induction l with
  | nil => cases hc
  | cons a tl ih =>
    by_cases ha : p a
    · rcases List.mem_cons.mp hc with rfl | h
      · rw [ha] at hp; cases hp
      · simpa [List.dropWhile_cons, ha] using ih h
    · simpa [List.dropWhile_cons, ha] using hc

lemma mem_trim_of_mem {l : Str} {c : Char} (hc : c ∈ l) (hp : isSpaceC c = false) :
    c ∈ trim l := by
  unfold trim
  rw [List.mem_reverse]
  exact mem_dropWhile_of_mem (List.mem_reverse.mpr (mem_dropWhile_of_mem hc hp)) hp

lemma trim_isEmpty_false {l : Str} {c : Char} (hc : c ∈ l) (hp : isSpaceC c = false) :
    (trim l).isEmpty = false := by
  have := mem_trim_of_mem hc hp
  cases h : trim l with
  | nil => rw [h] at this; cases this
  | cons a tl => rfl

lemma trim_eq_self {l : Str}
    (h1 : ∀ c, l.head? = some c → isSpaceC c = false)
    (h2 : ∀ c, l.getLast? = some c → isSpaceC c = false) : trim l = l := by
  unfold trim
  rw [dropWhile_eq_self_of_head h1]
  rw [dropWhile_eq_self_of_head (fun c hc => h2 c (by rwa [List.head?_reverse] at hc))]
  exact List.reverse_reverse l

lemma trim_append_ws {l : Str} {c : Char} (hc : isSpaceC c = true)
    (h1 : ∀ x, l.head? = some x → isSpaceC x = false)
    (h2 : ∀ x, l.getLast? = some x → isSpaceC x = false) :
    trim (l ++ [c]) = l := by
  cases l with
  | nil => simp [trim, List.dropWhile_cons, hc]
  | cons a tl =>
    have h1' : ∀ x, ((a :: tl) ++ [c]).head? = some x → isSpaceC x = false := by
      intro x hx
      simp only [List.cons_append, List.head?_cons, Option.some.injEq] at hx
      exact hx ▸ h1 a rfl
    unfold trim
    rw [dropWhile_eq_self_of_head h1']
    have hrev : ((a :: tl) ++ [c]).reverse = c :: (a :: tl).reverse := by
      simp
    rw [hrev, List.dropWhile_cons, if_pos hc,
      dropWhile_eq_self_of_head (fun x hx => h2 x (by rwa [List.head?_reverse] at hx)),
      List.reverse_reverse]

lemma getLines_append {l rest : Str} (h : '\n' ∉ l) :
    getLines (l ++ '\n' :: rest) = l :: getLines rest := by
  induction l with
  | nil => simp [getLines]
  | cons a tl ih =>
    have ha : ¬(a = '\n') := fun e => h (by rw [e]; exact List.mem_cons_self _ _)
    have htl : '\n' ∉ tl := fun hx => h (List.mem_cons_of_mem a hx)
    rw [List.cons_append, getLines, if_neg ha, ih htl]

lemma getLines_joinLines {L : List Str} (h : ∀ l ∈ L, '\n' ∉ l) :
    getLines (joinLines L) = L := by
  induction L with
  | nil => rfl
  | cons l tl ih =>
    have hjoin : joinLines (l :: tl) = l ++ '\n' :: joinLines tl := by
      simp [joinLines]
    rw [hjoin, getLines_append (h l (List.mem_cons_self _ _)),
      ih (fun x hx => h x (List.mem_cons_of_mem l hx))]

lemma stripBOM_eq_self {a b : Char} {s : Str} (h : b ≠ Char.ofNat 0xBB) :
    stripBOM (a :: b :: s) = a :: b :: s := by
  cases s with
  | nil => rfl
  | cons c tl =>
    rw [stripBOM]
    rw [if_neg (by rintro ⟨-, h2, -⟩; exact h h2)]

lemma findIdxOf_append_cons {c : Char} {l r : Str} (h : c ∉ l) :
    findIdxOf c (l ++ c :: r) = some l.length := by
  induction l with
  | nil => simp [findIdxOf]
  | cons a tl ih =>
    have ha : ¬(a = c) := fun e => h (by rw [e]; exact List.mem_cons_self _ _)
    have htl : c ∉ tl := fun hx => h (List.mem_cons_of_mem a hx)
    rw [List.cons_append, findIdxOf, if_neg ha, ih htl]
    rfl

lemma mapLookup_not_mem {α : Type} {m : List (Int × α)} {k : Int}
    (h : ∀ k' ∈ m.map Prod.fst, k' ≠ k) : mapLookup m k = none := by
  induction m with
  | nil => rfl
  | cons p tl ih =>
    rw [show mapLookup (p :: tl) k = if k = p.1 then some p.2 else mapLookup tl k from by
      cases p; rfl]
    rw [if_neg (fun e => h p.1 (by simp) e.symm)]
    exact ih (fun k' hk' => h k' (by simp [hk']))

lemma mapLookup_append_right {α : Type} {m m2 : List (Int × α)} {k : Int}
    (h : ∀ k' ∈ m.map Prod.fst, k' ≠ k) :
    mapLookup (m ++ m2) k = mapLookup m2 k := by
  induction m with
  | nil => rfl
  | cons p tl ih =>
    rw [List.cons_append]
    rw [show mapLookup (p :: (tl ++ m2)) k =
        if k = p.1 then some p.2 else mapLookup (tl ++ m2) k from by cases p; rfl]
    rw [if_neg (fun e => h p.1 (by simp) e.symm)]
    exact ih (fun k' hk' => h k' (by simp [hk']))

lemma mapInsert_gt {α : Type} {m : List (Int × α)} {k : Int} (v : α)
    (h : ∀ k' ∈ m.map Prod.fst, k' < k) : mapInsert m k v = m ++ [(k, v)] := by
  induction m with
  | nil => rfl
  | cons p tl ih =>
    have hp : p.1 < k := h p.1 (by simp)
    rw [show mapInsert (p :: tl) k v =
        (if k < p.1 then (k, v) :: p :: tl
         else if k = p.1 then (k, v) :: tl
         else p :: mapInsert tl k v) from by cases p; rfl]
    rw [if_neg (by omega), if_neg (by omega), ih (fun k' hk' => h k' (by simp [hk']))]
    rfl

lemma mapInsert_replace_last {α : Type} {m : List (Int × α)} {k : Int} (p x : α)
    (h : ∀ k' ∈ m.map Prod.fst, k' < k) :
    mapInsert (m ++ [(k, p)]) k x = m ++ [(k, x)] := by
  induction m with
  | nil => simp [mapInsert]
  | cons q tl ih =>
    have hq : q.1 < k := h q.1 (by simp)
    rw [List.cons_append]
    rw [show mapInsert (q :: (tl ++ [(k, p)])) k x =
        (if k < q.1 then (k, x) :: q :: (tl ++ [(k, p)])
         else if k = q.1 then (k, x) :: (tl ++ [(k, p)])
         else q :: mapInsert (tl ++ [(k, p)]) k x) from by cases q; rfl]
    rw [if_neg (by omega), if_neg (by omega), ih (fun k' hk' => h k' (by simp [hk']))]
    rfl

lemma head?_mem {l : Str} {c : Char} (h : l.head? = some c) : c ∈ l := by
  cases l with
  | nil => cases h
  | cons a tl =>
    simp only [List.head?_cons, Option.some.injEq] at h
    exact h ▸ List.mem_cons_self a tl

lemma getLast?_mem {l : Str} {c : Char} (h : l.getLast? = some c) : c ∈ l := by
  rw [← List.head?_reverse] at h
  exact List.mem_reverse.mp (head?_mem h)

lemma pow63_int : (2 : Int) ^ 63 = 9223372036854775808 := by norm_num

lemma pow63_nat : (2 : Nat) ^ 63 = 9223372036854775808 := by norm_num

/-- `toBaseN_good` for an `Int` identifier known to be non-negative. -/
lemma toBaseN_good' (base width : Int) (k : Int) (hb2 : 2 ≤ base) (hb36 : base ≤ 36)
    (h0 : 0 ≤ k) :
    toBaseN k base width ≠ [] ∧
    ∀ c ∈ toBaseN k base width,
      isSpaceC c = false ∧ c ≠ '(' ∧ c ≠ ')' ∧ c ≠ '{' ∧ c ≠ '}' ∧ c ≠ '\n' ∧
      c ≠ '\t' ∧ c ≠ ' ' ∧ c ≠ Char.ofNat 0xBB := by
  have he : k = ((k.toNat : Nat) : Int) := (Int.toNat_of_nonneg h0).symm
  rw [he]
  exact toBaseN_good base width k.toNat hb2 hb36

/-- `parse_toBaseN` for an `Int` identifier in `[0, 2^63)`. -/
lemma parse_toBaseN' (base width : Int) (k : Int) (hb2 : 2 ≤ base) (hb36 : base ≤ 36)
    (h0 : 0 ≤ k) (hk : k < 2 ^ 63) :
    parseIntBase (toBaseN k base width) base = some k := by
  have he : k = ((k.toNat : Nat) : Int) := (Int.toNat_of_nonneg h0).symm
  rw [he]
  refine parse_toBaseN base width k.toNat hb2 hb36 ?_
  rw [pow63_int] at hk
  rw [pow63_nat]
  omega

lemma bodyLoop_close (cfg : Config) (rest : List Str) (cur : Int)
    (m : List (Int × List (Int × Str))) :
    bodyLoop cfg (['}'] :: rest) cur m = .ok m := by
  rw [bodyLoop, if_pos (by decide)]

lemma bodyLoop_marker (cfg : Config) (hb2 : 2 ≤ cfg.base) (hb36 : cfg.base ≤ 36)
    (r : Int) (h0 : 0 ≤ r) (hr : r < 2 ^ 63) (rest : List Str) (cur : Int)
    (m : List (Int × List (Int × Str))) :
    bodyLoop cfg (toBaseN r cfg.base cfg.widthReg :: rest) cur m =
      bodyLoop cfg rest r m := by
  obtain ⟨hne, hgood⟩ := toBaseN_good' cfg.base cfg.widthReg r hb2 hb36 h0
  set L := toBaseN r cfg.base cfg.widthReg with hL
  have hcon : L.contains '}' = false :=
    contains_eq_false fun hm => ((hgood '}' hm).2.2.2.2.1) rfl
  have htrim : trim L = L := trim_eq_self
    (fun c hc => (hgood c (head?_mem hc)).1) (fun c hc => (hgood c (getLast?_mem hc)).1)
  have hblank : (trim L).isEmpty = false := by
    rw [htrim]
    cases hLc : L with
    | nil => exact absurd hLc hne
    | cons a tl => rfl
  have hcond : L ≠ [] ∧ L.head? ≠ some '\t' ∧ L.head? ≠ some ' ' := by
    refine ⟨hne, fun hc => ?_, fun hc => ?_⟩
    · exact (hgood '\t' (head?_mem hc)).2.2.2.2.2.2.1 rfl
    · exact (hgood ' ' (head?_mem hc)).2.2.2.2.2.2.2.1 rfl
  rw [bodyLoop, if_neg (by rw [hcon]; exact Bool.false_ne_true),
    if_neg (by rw [hblank]; exact Bool.false_ne_true), if_pos hcond, htrim,
    parse_toBaseN' cfg.base cfg.widthReg r hb2 hb36 h0 hr]

lemma bodyLoop_addr (cfg : Config) (hb2 : 2 ≤ cfg.base) (hb36 : cfg.base ≤ 36)
    (a : Int) (h0 : 0 ≤ a) (ha : a < 2 ^ 63) (v : Str) (hv : '}' ∉ v)
    (rest : List Str) (cur : Int) (m : List (Int × List (Int × Str))) :
    bodyLoop cfg (('\t' :: (toBaseN a cfg.base cfg.widthAddr ++ '\t' :: v)) :: rest) cur m =
      bodyLoop cfg rest cur (bankInsert m cur a v) := by
  obtain ⟨hne, hgood⟩ := toBaseN_good' cfg.base cfg.widthAddr a hb2 hb36 h0
  set A := toBaseN a cfg.base cfg.widthAddr with hA
  obtain ⟨d, A', hAd⟩ := List.exists_cons_of_ne_nil hne
  set L : Str := '\t' :: (A ++ '\t' :: v) with hLdef
  have hdA : d ∈ A := by rw [hAd]; exact List.mem_cons_self d A'
  have hcon : L.contains '}' = false := by
    refine contains_eq_false fun hm => ?_
    rw [hLdef] at hm
    rcases List.mem_cons.mp hm with h | h
    · cases h
    rcases List.mem_append.mp h with h | h
    · exact (hgood '}' h).2.2.2.2.1 rfl
    rcases List.mem_cons.mp h with h | h
    · cases h
    · exact hv h
  have hblank : (trim L).isEmpty = false := by
    refine trim_isEmpty_false (c := d) ?_ (hgood d hdA).1
    rw [hLdef]
    exact List.mem_cons_of_mem _ (List.mem_append_left _ hdA)
  have hcond : ¬(L ≠ [] ∧ L.head? ≠ some '\t' ∧ L.head? ≠ some ' ') := by
    rintro ⟨-, h2, -⟩
    exact h2 rfl
  have hdrop : L.dropWhile (fun c => decide (c = '\t' ∨ c = ' ')) = A ++ '\t' :: v := by
    rw [hLdef, List.dropWhile_cons, if_pos (by decide)]
    refine dropWhile_eq_self_of_head fun c hc => ?_
    rw [hAd] at hc
    simp only [List.cons_append, List.head?_cons, Option.some.injEq] at hc
    subst hc
    have hg := hgood d hdA
    simp [hg.2.2.2.2.2.2.1, hg.2.2.2.2.2.2.2.1]
  have hfind : findIdxOf '\t' (A ++ '\t' :: v) = some A.length :=
    findIdxOf_append_cons fun hm => (hgood '\t' hm).2.2.2.2.2.2.1 rfl
  have htake : (A ++ '\t' :: v).take A.length = A := by
    simp
  have htrimA : trim A = A := trim_eq_self
    (fun c hc => (hgood c (head?_mem hc)).1) (fun c hc => (hgood c (getLast?_mem hc)).1)
  have hdrop2 : (A ++ '\t' :: v).drop (A.length + 1) = v := by
    have : A ++ '\t' :: v = (A ++ ['\t']) ++ v := by simp
    rw [this, show A.length + 1 = (A ++ ['\t']).length by simp]
    exact List.drop_left _ _
  rw [bodyLoop, if_neg (by rw [hcon]; exact Bool.false_ne_true),
    if_neg (by rw [hblank]; exact Bool.false_ne_true), if_neg hcond]
  simp only [hdrop, hfind, htake, htrimA, hdrop2,
    parse_toBaseN' cfg.base cfg.widthAddr a hb2 hb36 h0 ha]

lemma bodyLoop_addrLines (cfg : Config) (hb2 : 2 ≤ cfg.base) (hb36 : cfg.base ≤ 36)
    (addrs : List (Int × Str))
    (hclean : ∀ q ∈ addrs, 0 ≤ q.1 ∧ q.1 < 2 ^ 63 ∧ '}' ∉ q.2) :
    ∀ (rest : List Str) (cur : Int) (m : List (Int × List (Int × Str))),
      bodyLoop cfg (addrLines cfg addrs ++ rest) cur m =
        bodyLoop cfg rest cur (addrs.foldl (fun acc q => bankInsert acc cur q.1 q.2) m) := by
  induction addrs with
  | nil => intro rest cur m; rfl
  | cons q tl ih =>
    intro rest cur m
    obtain ⟨h0, hlt, hv⟩ := hclean q (List.mem_cons_self q tl)
    have hcl : ∀ x ∈ tl, 0 ≤ x.1 ∧ x.1 < 2 ^ 63 ∧ '}' ∉ x.2 :=
      fun x hx => hclean x (List.mem_cons_of_mem q hx)
    rw [show addrLines cfg (q :: tl) =
      ('\t' :: (toBaseN q.1 cfg.base cfg.widthAddr ++ '\t' :: q.2)) :: addrLines cfg tl
      from rfl]
    rw [List.cons_append, bodyLoop_addr cfg hb2 hb36 q.1 h0 hlt q.2 hv, ih hcl]
    rfl

lemma bankInsert_fold_go (r : Int) (addrs : List (Int × Str)) :
    ∀ (m0 : List (Int × List (Int × Str))) (p : List (Int × Str)),
      (∀ k ∈ m0.map Prod.fst, k < r) →
      (∀ x ∈ addrs, ∀ y ∈ p, y.1 < x.1) →
      List.Pairwise (fun x y => x.1 < y.1) addrs →
      addrs.foldl (fun acc q => bankInsert acc r q.1 q.2) (m0 ++ [(r, p)]) =
        m0 ++ [(r, p ++ addrs)] := by
  induction addrs with
  | nil => intro m0 p _ _ _; simp
  | cons q tl ih =>
    intro m0 p hm0 hgt hsorted
    obtain ⟨hhead, htlsorted⟩ := List.pairwise_cons.mp hsorted
    have hlook : mapLookup (m0 ++ [(r, p)]) r = some p := by
      rw [mapLookup_append_right (fun k hk => ne_of_lt (hm0 k hk))]
      simp [mapLookup]
    have hinsp : mapInsert p q.1 q.2 = p ++ [(q.1, q.2)] := by
      refine mapInsert_gt q.2 fun k hk => ?_
      obtain ⟨y, hy, rfl⟩ := List.mem_map.mp hk
      exact hgt q (List.mem_cons_self q tl) y hy
    have hstep : bankInsert (m0 ++ [(r, p)]) r q.1 q.2 = m0 ++ [(r, p ++ [(q.1, q.2)])] := by
      rw [bankInsert, hlook]
      simp only [Option.getD_some]
      rw [hinsp]
      exact mapInsert_replace_last p (p ++ [(q.1, q.2)]) hm0
    rw [List.foldl_cons, hstep, ih m0 (p ++ [(q.1, q.2)]) hm0 ?_ htlsorted]
    · simp
    · intro x hx y hy
      rcases List.mem_append.mp hy with h | h
      · exact hgt x (List.mem_cons_of_mem q hx) y h
      · rcases List.mem_cons.mp h with rfl | h
        · exact hhead x hx
        · cases h

lemma bankInsert_fold (r : Int) (addrs : List (Int × Str))
    (m : List (Int × List (Int × Str)))
    (hm : ∀ k ∈ m.map Prod.fst, k < r)
    (hsorted : List.Pairwise (fun x y => x.1 < y.1) addrs) :
    addrs.foldl (fun acc q => bankInsert acc r q.1 q.2) m =
      if addrs.isEmpty then m else m ++ [(r, addrs)] := by
  cases addrs with
  | nil => rfl
  | cons q tl =>
    obtain ⟨hhead, htlsorted⟩ := List.pairwise_cons.mp hsorted
    have hlook : mapLookup m r = none :=
      mapLookup_not_mem fun k hk => ne_of_lt (hm k hk)
    have hstep : bankInsert m r q.1 q.2 = m ++ [(r, [(q.1, q.2)])] := by
      rw [bankInsert, hlook]
      simp only [Option.getD_none]
      rw [show mapInsert ([] : List (Int × Str)) q.1 q.2 = [(q.1, q.2)] from rfl]
      exact mapInsert_gt _ hm
    rw [List.foldl_cons, hstep,
      bankInsert_fold_go r tl m [(q.1, q.2)] hm
        (fun x hx y hy => by
          rcases List.mem_cons.mp hy with rfl | h
          · exact hhead x hx
          · cases h)
        htlsorted]
    simp

lemma mapLookup_filter_bind (regs : List (Int × List (Int × Str)))
    (hsorted : List.Pairwise (fun p q => p.1 < q.1) regs) (r a : Int) :
    (mapLookup (regs.filter fun p => !p.2.isEmpty) r).bind (fun l => mapLookup l a) =
      (mapLookup regs r).bind (fun l => mapLookup l a) := by
  induction regs with
  | nil => rfl
  | cons p tl ih =>
    obtain ⟨hhead, htlsorted⟩ := List.pairwise_cons.mp hsorted
    have hlem : mapLookup (p :: tl) r = if r = p.1 then some p.2 else mapLookup tl r := by
      cases p; rfl
    by_cases hes : p.2.isEmpty
    · have hfil : (p :: tl).filter (fun p => !p.2.isEmpty) =
          tl.filter (fun p => !p.2.isEmpty) := by
        simp [List.filter_cons, hes]
      rw [hfil, hlem]
      by_cases hr : r = p.1
      · rw [if_pos hr]
        have hp2 : p.2 = [] := by
          cases h2 : p.2 with
          | nil => rfl
          | cons x xs => rw [h2] at hes; cases hes
        have : mapLookup (tl.filter fun p => !p.2.isEmpty) r = none := by
          refine mapLookup_not_mem fun k hk => ?_
          obtain ⟨y, hy, rfl⟩ := List.mem_map.mp hk
          have := hhead y (List.mem_of_mem_filter hy)
          omega
        rw [this, hp2]
        rfl
      · rw [if_neg hr, ih htlsorted]
    · have hfil : (p :: tl).filter (fun p => !p.2.isEmpty) =
          p :: tl.filter (fun p => !p.2.isEmpty) := by
        simp [List.filter_cons, hes]
      rw [hfil, hlem,
        show mapLookup (p :: tl.filter fun p => !p.2.isEmpty) r =
          if r = p.1 then some p.2 else mapLookup (tl.filter fun p => !p.2.isEmpty) r
        from by cases p; rfl]
      by_cases hr : r = p.1
      · rw [if_pos hr, if_pos hr]
      · rw [if_neg hr, if_neg hr, ih htlsorted]

lemma bodyLoop_multi (cfg : Config) (hb2 : 2 ≤ cfg.base) (hb36 : cfg.base ≤ 36)
    (regs : List (Int × List (Int × Str))) :
    ∀ (m : List (Int × List (Int × Str))) (cur : Int),
      (∀ k ∈ m.map Prod.fst, ∀ p ∈ regs, k < p.1) →
      List.Pairwise (fun p q => p.1 < q.1) regs →
      (∀ p ∈ regs, 0 ≤ p.1 ∧ p.1 < 2 ^ 63 ∧
        List.Pairwise (fun x y => x.1 < y.1) p.2 ∧
        ∀ q ∈ p.2, 0 ≤ q.1 ∧ q.1 < 2 ^ 63 ∧ '}' ∉ q.2) →
      bodyLoop cfg
        ((regs.foldr
          (fun p acc => toBaseN p.1 cfg.base cfg.widthReg :: (addrLines cfg p.2 ++ acc)) [])
          ++ [['}']]) cur m =
        .ok (m ++ regs.filter fun p => !p.2.isEmpty) := by
  induction regs with
  | nil =>
    intro m cur _ _ _
    simpa using bodyLoop_close cfg [] cur m
  | cons p tl ih =>
    intro m cur hm hsorted hclean
    obtain ⟨hhead, htlsorted⟩ := List.pairwise_cons.mp hsorted
    obtain ⟨hp0, hplt, hpsorted, hpq⟩ := hclean p (List.mem_cons_self p tl)
    rw [List.foldr_cons, List.cons_append, List.append_assoc,
      bodyLoop_marker cfg hb2 hb36 p.1 hp0 hplt,
      bodyLoop_addrLines cfg hb2 hb36 p.2 (fun q hq => hpq q hq),
      bankInsert_fold p.1 p.2 m (fun k hk => hm k hk p (List.mem_cons_self p tl)) hpsorted]
    by_cases hes : p.2.isEmpty
    · rw [if_pos hes,
        ih m p.1 (fun k hk x hx => hm k hk x (List.mem_cons_of_mem p hx)) htlsorted
          (fun x hx => hclean x (List.mem_cons_of_mem p hx))]
      simp [List.filter_cons, hes]
    · rw [if_neg hes,
        ih (m ++ [(p.1, p.2)]) p.1 ?_ htlsorted
          (fun x hx => hclean x (List.mem_cons_of_mem p hx))]
      · simp [List.filter_cons, hes]
      · intro k hk x hx
        rcases List.mem_map.mp hk with ⟨y, hy, rfl⟩
        rcases List.mem_append.mp hy with h | h
        · exact hm y.1 (List.mem_map_of_mem Prod.fst h) x (List.mem_cons_of_mem p hx)
        · rcases List.mem_cons.mp h with rfl | h
          · exact hhead x hx
          · cases h

/-- Parsing a serialized bank text: the header line is recovered
(bank id parsed back, body handed to the body loop with current
register 1), for any body lines free of newlines. -/
lemma parseBankText_gen (cfg : Config) (id : Int) (title : Str) (bodyLines : List Str)
    (hb2 : 2 ≤ cfg.base) (hb36 : cfg.base ≤ 36)
    (hpfx1 : cfg.pfx ≠ '(') (hpfx2 : isSpaceC cfg.pfx = false)
    (hid0 : 0 ≤ id) (hid : id < 2 ^ 63) (htitle : '\n' ∉ title)
    (hnl : ∀ l ∈ bodyLines, '\n' ∉ l) :
    ∃ t, parseBankText
        (joinLines (((cfg.pfx :: toBaseN id cfg.base cfg.widthBank) ++
          '\t' :: '(' :: (title ++ [')', '{'])) :: (bodyLines ++ [['}']]))) cfg =
      (bodyLoop cfg (bodyLines ++ [['}']]) 1 []).map
        (fun regs => { id := id, title := t, regs := regs }) := by
  set T := toBaseN id cfg.base cfg.widthBank with hT
  obtain ⟨hTne, hTgood⟩ := toBaseN_good' cfg.base cfg.widthBank id hb2 hb36 hid0
  obtain ⟨d, T', hTd⟩ := List.exists_cons_of_ne_nil hTne
  have hTd' : T = d :: T' := hT.trans hTd
  set H : Str := (cfg.pfx :: T) ++ '\t' :: '(' :: (title ++ [')', '{']) with hH
  have hpfxn : cfg.pfx ≠ '\n' := fun e => by rw [e] at hpfx2; cases hpfx2
  have hHnl : '\n' ∉ H := by
    rw [hH]
    intro hm
    rcases List.mem_append.mp hm with h | h
    · rcases List.mem_cons.mp h with h | h
      · exact hpfxn h.symm
      · exact (hTgood '\n' h).2.2.2.2.2.1 rfl
    · rcases List.mem_cons.mp h with h | h
      · cases h
      rcases List.mem_cons.mp h with h | h
      · cases h
      rcases List.mem_append.mp h with h | h
      · exact htitle h
      · rcases List.mem_cons.mp h with h | h
        · cases h
        rcases List.mem_cons.mp h with h | h
        · cases h
        · cases h
  have hlinesnl : ∀ l ∈ H :: (bodyLines ++ [['}']]), '\n' ∉ l := by
    intro l hl
    rcases List.mem_cons.mp hl with rfl | h
    · exact hHnl
    rcases List.mem_append.mp h with h | h
    · exact hnl l h
    · rcases List.mem_cons.mp h with rfl | h
      · decide
      · cases h
  have hgl : getLines (joinLines (H :: (bodyLines ++ [['}']]))) =
      H :: (bodyLines ++ [['}']]) := getLines_joinLines hlinesnl
  have htext : joinLines (H :: (bodyLines ++ [['}']])) =
      H ++ '\n' :: joinLines (bodyLines ++ [['}']]) := by
    simp [joinLines]
  have hdne : d ≠ Char.ofNat 0xBB :=
    (hTgood d (by rw [hTd]; exact List.mem_cons_self d T')).2.2.2.2.2.2.2.2
  have hshape2 : H ++ '\n' :: joinLines (bodyLines ++ [['}']]) =
      cfg.pfx :: d :: (T' ++ '\t' :: '(' :: (title ++ [')', '{']) ++
        '\n' :: joinLines (bodyLines ++ [['}']])) := by
    rw [hH, hTd']
    simp
  have hstrip : stripBOM (joinLines (H :: (bodyLines ++ [['}']]))) =
      joinLines (H :: (bodyLines ++ [['}']])) := by
    rw [htext, hshape2, stripBOM_eq_self hdne]
  -- header-line character facts
  have hHhead : H.head? = some cfg.pfx := by rw [hH]; rfl
  have hTlast : ∀ c, T.getLast? = some c → isSpaceC c = false :=
    fun c hc => (hTgood c (getLast?_mem hc)).1
  have hHlast : H.getLast? = some '{' := by
    rw [hH, show (cfg.pfx :: T) ++ '\t' :: '(' :: (title ++ [')', '{']) =
      ((cfg.pfx :: T) ++ '\t' :: '(' :: (title ++ [')'])) ++ ['{'] by simp]
    exact List.getLast?_concat _
  have htrimH : trim H = H := trim_eq_self
    (fun c hc => by rw [hHhead] at hc; cases hc; exact hpfx2)
    (fun c hc => by rw [hHlast] at hc; cases hc; decide)
  have hHmem : '{' ∈ H := by rw [hH]; simp
  have hcont : H.contains '{' = true := contains_eq_true hHmem
  have hblankH : (trim H).isEmpty = false := by
    rw [htrimH]
    cases hHc : H with
    | nil => rw [hHc] at hHmem; cases hHmem
    | cons a tl => rfl
  -- find '(' and rfind ')'
  have hH2 : H = (cfg.pfx :: (T ++ ['\t'])) ++ '(' :: (title ++ [')', '{']) := by
    rw [hH]; simp
  have hlp : findIdxOf '(' H = some (T.length + 2) := by
    rw [hH2]
    rw [findIdxOf_append_cons (by
      intro hm
      rcases List.mem_cons.mp hm with h | h
      · exact hpfx1 h.symm
      rcases List.mem_append.mp h with h | h
      · exact (hTgood '(' h).2.1 rfl
      · rcases List.mem_cons.mp h with h | h
        · cases h
        · cases h)]
    have hlen0 : (cfg.pfx :: (T ++ ['\t'])).length = T.length + 2 := by
      simp
      try omega
    rw [hlen0]
  have hHrev : H.reverse = '{' :: ')' :: (title.reverse ++ '(' :: '\t' ::
      (T.reverse ++ [cfg.pfx])) := by
    rw [hH]; simp
  have hfr : findIdxOf ')' H.reverse = some 1 := by
    rw [hHrev, findIdxOf, if_neg (by decide), findIdxOf, if_pos rfl]
    rfl
  have hHlen : H.length = T.length + title.length + 5 := by
    rw [hH]
    simp
    try omega
  have hrp : rfindIdxOf ')' H = some (T.length + title.length + 3) := by
    rw [rfindIdxOf, hfr]
    simp only [Option.map_some']
    rw [hHlen, show T.length + title.length + 5 - 1 - 1 = T.length + title.length + 3 by omega]
  -- left part
  have htake : H.take (T.length + 2) = cfg.pfx :: (T ++ ['\t']) := by
    rw [hH2, show T.length + 2 = (cfg.pfx :: (T ++ ['\t'])).length by simp]
    exact List.take_left _ _
  have hgetlastpfxT : (cfg.pfx :: T).getLast? = T.getLast? := by
    rw [hTd']
    exact List.getLast?_cons_cons
  have htrimtake : trim (cfg.pfx :: (T ++ ['\t'])) = cfg.pfx :: T := by
    rw [show cfg.pfx :: (T ++ ['\t']) = (cfg.pfx :: T) ++ ['\t'] by simp]
    refine trim_append_ws (by decide) ?_ ?_
    · intro x hx
      cases hx
      exact hpfx2
    · intro x hx
      rw [hgetlastpfxT] at hx
      exact hTlast x hx
  have hparseT : parseIntBase T cfg.base = some id :=
    parse_toBaseN' cfg.base cfg.widthBank id hb2 hb36 hid0 hid
  -- assemble
  refine ⟨trim ((H.drop (T.length + 2 + 1)).take (T.length + title.length + 3 - (T.length + 2) - 1)), ?_⟩
  rw [parseBankText]
  simp only [hstrip, hgl]
  rw [show (H :: (bodyLines ++ [['}']])).isEmpty = false from rfl]
  simp only [Bool.false_eq_true, if_false]
  rw [List.dropWhile_cons, if_neg (by rw [hblankH]; exact Bool.false_ne_true)]
  dsimp only
  rw [show accumHeader (trim H) (bodyLines ++ [['}']]) = H from by
    rw [htrimH, accumHeader.eq_def, if_pos hcont]]
  rw [if_neg (by rw [hcont]; exact not_not_intro rfl)]
  rw [hlp, hrp]
  dsimp only
  rw [if_neg (by omega)]
  rw [htake, htrimtake]
  rw [if_pos ⟨List.cons_ne_nil _ _, rfl⟩]
  rw [show (cfg.pfx :: T).tail = T from rfl]
  rw [hparseT]
  dsimp only
  rw [List.dropWhile_cons, if_neg (by rw [hcont]; simp)]

lemma mapLookup_mem {α : Type} {m : List (Int × α)} {k : Int} {v : α}
    (h : mapLookup m k = some v) : (k, v) ∈ m := by
  induction m with
  | nil => cases h
  | cons p tl ih =>
    rw [show mapLookup (p :: tl) k = if k = p.1 then some p.2 else mapLookup tl k
      from by cases p; rfl] at h
    by_cases hk : k = p.1
    · rw [if_pos hk] at h
      injection h with h
      have : (k, v) = p := by rw [hk, ← h]
      rw [this]
      exact List.mem_cons_self p tl
    · rw [if_neg hk] at h
      exact List.mem_cons_of_mem _ (ih h)

lemma addrLines_nl (cfg : Config) (hb2 : 2 ≤ cfg.base) (hb36 : cfg.base ≤ 36)
    (addrs : List (Int × Str)) (h : ∀ q ∈ addrs, 0 ≤ q.1 ∧ '\n' ∉ q.2) :
    ∀ l ∈ addrLines cfg addrs, '\n' ∉ l := by
  intro l hl
  obtain ⟨q, hq, rfl⟩ := List.mem_map.mp hl
  intro hm
  obtain ⟨h0, hnl⟩ := h q hq
  obtain ⟨-, hgood⟩ := toBaseN_good' cfg.base cfg.widthAddr q.1 hb2 hb36 h0
  rcases List.mem_cons.mp hm with h | h
  · cases h
  rcases List.mem_append.mp h with h | h
  · exact (hgood '\n' h).2.2.2.2.2.1 rfl
  rcases List.mem_cons.mp h with h | h
  · cases h
  · exact hnl h

lemma regsLines_nl (cfg : Config) (hb2 : 2 ≤ cfg.base) (hb36 : cfg.base ≤ 36)
    (regs : List (Int × List (Int × Str)))
    (h : ∀ p ∈ regs, 0 ≤ p.1 ∧ ∀ q ∈ p.2, 0 ≤ q.1 ∧ '\n' ∉ q.2) :
    ∀ l ∈ regs.foldr
      (fun p acc => toBaseN p.1 cfg.base cfg.widthReg :: (addrLines cfg p.2 ++ acc)) [],
      '\n' ∉ l := by
  induction regs with
  | nil => intro l hl; cases hl
  | cons p tl ih =>
    intro l hl
    obtain ⟨hp0, hpq⟩ := h p (List.mem_cons_self p tl)
    rw [List.foldr_cons] at hl
    rcases List.mem_cons.mp hl with rfl | hl
    · obtain ⟨-, hgood⟩ := toBaseN_good' cfg.base cfg.widthReg p.1 hb2 hb36 hp0
      intro hm
      exact (hgood '\n' hm).2.2.2.2.2.1 rfl
    rcases List.mem_append.mp hl with hl | hl
    · exact addrLines_nl cfg hb2 hb36 p.2 (fun q hq => hpq q hq) l hl
    · exact ih (fun x hx => h x (List.mem_cons_of_mem _ hx)) l hl

/-- C3 (amended): for a configuration with base 2–36 whose prefix is
neither `'('` nor whitespace, and a bank whose id, register ids and
address ids are representable (`[0, 2^63)`), whose maps are sorted
ascending without duplicates (the `std::map` invariant), whose title
contains no newline, and whose values contain neither a newline nor
`'}'`, `parseBankText (writeBankText bank cfg) cfg` succeeds and
reconstructs a bank with the same id and identical
`(register, address) → value` mappings. -/
theorem c3_parse_write_roundtrip (cfg : Config) (b : Bank)
    (hb2 : 2 ≤ cfg.base) (hb36 : cfg.base ≤ 36)
    (hpfx1 : cfg.pfx ≠ '(') (hpfx2 : isSpaceC cfg.pfx = false)
    (hid0 : 0 ≤ b.id) (hid : b.id < 2 ^ 63)
    (htitle : '\n' ∉ b.title)
    (hsorted : List.Pairwise (fun p q => p.1 < q.1) b.regs)
    (hregs : ∀ p ∈ b.regs, 0 ≤ p.1 ∧ p.1 < 2 ^ 63 ∧
      List.Pairwise (fun x y => x.1 < y.1) p.2 ∧
      ∀ q ∈ p.2, 0 ≤ q.1 ∧ q.1 < 2 ^ 63 ∧ '\n' ∉ q.2 ∧ '}' ∉ q.2) :
    ∃ b', parseBankText (writeBankText b cfg) cfg = .ok b' ∧
      b'.id = b.id ∧ ∀ r a, bankLookup b' r a = bankLookup b r a := by
  set BL : List Str :=
    (if ¬(1 < b.regs.length ∨ (b.regs.length = 1 ∧ (b.regs.head?.map Prod.fst) ≠ some 1))
     then
       match mapLookup b.regs 1 with
       | some addrs => addrLines cfg addrs
       | none => []
     else
       b.regs.foldr
         (fun p acc => toBaseN p.1 cfg.base cfg.widthReg :: (addrLines cfg p.2 ++ acc)) [])
    with hBL
  have hwrite : writeBankText b cfg =
      joinLines (((cfg.pfx :: toBaseN b.id cfg.base cfg.widthBank) ++
        '\t' :: '(' :: (b.title ++ [')', '{'])) :: (BL ++ [['}']])) := rfl
  have hnlBL : ∀ l ∈ BL, '\n' ∉ l := by
    rw [hBL]
    by_cases hmulti :
        1 < b.regs.length ∨ (b.regs.length = 1 ∧ (b.regs.head?.map Prod.fst) ≠ some 1)
    · rw [if_neg (not_not_intro hmulti)]
      exact regsLines_nl cfg hb2 hb36 b.regs
        (fun p hp => ⟨(hregs p hp).1,
          fun q hq => ⟨((hregs p hp).2.2.2 q hq).1, ((hregs p hp).2.2.2 q hq).2.2.1⟩⟩)
    · rw [if_pos hmulti]
      cases hlook : mapLookup b.regs 1 with
      | none => intro l hl; cases hl
      | some addrs =>
        have hmem := mapLookup_mem hlook
        exact addrLines_nl cfg hb2 hb36 addrs
          (fun q hq => ⟨((hregs _ hmem).2.2.2 q hq).1, ((hregs _ hmem).2.2.2 q hq).2.2.1⟩)
  obtain ⟨t, hparse⟩ := parseBankText_gen cfg b.id b.title BL hb2 hb36 hpfx1 hpfx2
    hid0 hid htitle hnlBL
  have hbody : bodyLoop cfg (BL ++ [['}']]) 1 [] =
      .ok (b.regs.filter fun p => !p.2.isEmpty) := by
    rw [hBL]
    by_cases hmulti :
        1 < b.regs.length ∨ (b.regs.length = 1 ∧ (b.regs.head?.map Prod.fst) ≠ some 1)
    · rw [if_neg (not_not_intro hmulti)]
      rw [bodyLoop_multi cfg hb2 hb36 b.regs [] 1 (by intro k hk; cases hk) hsorted
        (fun p hp => ⟨(hregs p hp).1, (hregs p hp).2.1, (hregs p hp).2.2.1,
          fun q hq => ⟨((hregs p hp).2.2.2 q hq).1, ((hregs p hp).2.2.2 q hq).2.1,
            ((hregs p hp).2.2.2 q hq).2.2.2⟩⟩)]
      rw [List.nil_append]
    · rw [if_pos hmulti]
      push_neg at hmulti
      obtain ⟨hlen, hkey⟩ := hmulti
      cases hbr : b.regs with
      | nil => simpa using bodyLoop_close cfg [] 1 []
      | cons p tl =>
        have htl : tl = [] := by
          rw [hbr] at hlen
          cases tl with
          | nil => rfl
          | cons x xs => simp at hlen
        subst htl
        have hp1 : p.1 = 1 := by
          have := hkey (by rw [hbr]; rfl)
          rw [hbr] at this
          simpa using this
        have hlook : mapLookup [p] 1 = some p.2 := by
          rw [show mapLookup [p] 1 = if 1 = p.1 then some p.2 else mapLookup [] 1
            from by cases p; rfl, if_pos hp1.symm]
        rw [hlook]
        obtain ⟨-, -, hpsorted, hpq⟩ := hregs p (by rw [hbr]; exact List.mem_cons_self p [])
        rw [bodyLoop_addrLines cfg hb2 hb36 p.2
          (fun q hq => ⟨(hpq q hq).1, (hpq q hq).2.1, (hpq q hq).2.2.2⟩) [['}']] 1 [],
          bodyLoop_close,
          bankInsert_fold 1 p.2 [] (by intro k hk; cases hk) hpsorted]
        cases hes : p.2.isEmpty with
        | true =>
          rw [if_pos rfl]
          simp [List.filter_cons, hes]
        | false =>
          rw [if_neg Bool.false_ne_true]
          have : (1, p.2) = p := by rw [← hp1]
          rw [this]
          simp [List.filter_cons, hes]
  refine ⟨{ id := b.id, title := t, regs := b.regs.filter fun p => !p.2.isEmpty }, ?_, rfl, ?_⟩
  · rw [hwrite, hparse, hbody]
    rfl
  · intro r a
    exact mapLookup_filter_bind b.regs hsorted r a

/-- Witness for the amended C3 at a concrete two-register bank under
the default configuration. -/
theorem c3_parse_write_roundtrip_witness :
    (2 ≤ defaultConfig.base ∧ defaultConfig.base ≤ 36 ∧ defaultConfig.pfx ≠ '(' ∧
      isSpaceC defaultConfig.pfx = false) ∧
    (∃ b', parseBankText
        (writeBankText
          { id := 7, title := "t".toList,
            regs := [(2, [(1, "A".toList)]), (5, [(3, "B x1.2".toList)])] }
          defaultConfig) defaultConfig = .ok b' ∧
      b'.id = (7 : Int) ∧
      ∀ r a, bankLookup b' r a =
        bankLookup
          { id := 7, title := "t".toList,
            regs := [(2, [(1, "A".toList)]), (5, [(3, "B x1.2".toList)])] } r a) :=
  ⟨⟨by decide, by decide, by decide, by decide⟩,
    c3_parse_write_roundtrip defaultConfig
      { id := 7, title := "t".toList,
        regs := [(2, [(1, "A".toList)]), (5, [(3, "B x1.2".toList)])] }
      (by decide) (by decide) (by decide) (by decide) (by decide) (by decide)
      (by decide) (by decide) (by decide)⟩

/-- C3 counterexample: with the default configuration, a bank whose
(1,1) value is the single character `'}'` serializes to a text whose
body scan stops at that value's line, so parsing back succeeds but
loses the mapping — the claim fails for arbitrary text values. -/
theorem c3_roundtrip_counterexample :
    bankLookup { id := 1, title := [], regs := [(1, [(1, ['}'])])] } 1 1 = some ['}'] ∧
    parseBankText
        (writeBankText { id := 1, title := [], regs := [(1, [(1, ['}'])])] } defaultConfig)
        defaultConfig =
      .ok { id := 1, title := [], regs := [] } :=
  ⟨by decide, by decide⟩

/-- C7 (confirmed): with the default configuration (prefix `'x'`,
base 10) and a store where bank 1, register 1, address 1 holds
`"r1.0001"`, resolving that value with current bank 1 and an empty
initial visited set returns exactly `"[Circular Ref: r1.0001]"` (and
leaves the workspace unchanged). -/
theorem c7_self_reference_circular :
    resolve defaultConfig {} 10 "r1.0001".toList 1 []
        { banks := [(1, { id := 1, title := [], regs := [(1, [(1, "r1.0001".toList)])] })] } =
      .ok ("[Circular Ref: r1.0001]".toList,
        { banks := [(1, { id := 1, title := [], regs := [(1, [(1, "r1.0001".toList)])] })] }) := by
  decide

/-- C1 counterexample: base 16; bank 11 register 1 address 1 holds
`"A xb.1.1"`.  Resolving `"xB.1.1"` puts triple (11,1,1) on the path
under the key `"xB.1.1"`; the depth-1 reference `"xb.1.1"` targets the
same triple, yet it is expanded again (the marker `A` is emitted twice)
instead of being reported circular there — the claim's predicted output
is `"A [Circular Ref: xb.1.1]"`, with a single expansion.  The visited
key is the literal spelling, not the canonical triple. -/
theorem c1_circular_counterexample :
    resolve { base := 16 } {} 10 "xB.1.1".toList 11 []
        { banks := [(11, { id := 11, title := [], regs := [(1, [(1, "A xb.1.1".toList)])] })] } =
      .ok ("A A [Circular Ref: xb.1.1]".toList,
        { banks := [(11, { id := 11, title := [], regs := [(1, [(1, "A xb.1.1".toList)])] })] }) ∧
    "A A [Circular Ref: xb.1.1]".toList ≠ "A [Circular Ref: xb.1.1]".toList := by
  constructor
  · decide
  · decide

/-- C1 (amended): circularity is tracked per pass by pass-local key
strings, copied on recursion.  (1) Branch independence holds: two
references in the same string to the same non-cyclic cell both expand
(`"x1.2.3 x1.2.3"` gives `"World World"`, no false circular report).
(2) A reference whose literal spelling repeats on the path is flagged:
resolving `"xb.1.1"` where cell (11,1,1) holds `"A xb.1.1"` gives
`"A [Circular Ref: xb.1.1]"`.  (3) The same-bank pass keys on the
canonical decimal triple, so padding variants of the same cell are
flagged: resolving `"r1.1"` where cell (1,1,1) holds `"B r001.0001"`
gives `"B [Circular Ref: r001.0001]"`.  (Only the prefixed passes key
on the literal spelling — the counterexample shows a re-spelled
reference escaping detection there.) -/
theorem c1_circular_amended :
    resolve defaultConfig {} 10 "x1.2.3 x1.2.3".toList 1 []
        { banks := [(1, { id := 1, title := [], regs := [(2, [(3, "World".toList)])] })] } =
      .ok ("World World".toList,
        { banks := [(1, { id := 1, title := [], regs := [(2, [(3, "World".toList)])] })] }) ∧
    resolve { base := 16 } {} 10 "xb.1.1".toList 11 []
        { banks := [(11, { id := 11, title := [], regs := [(1, [(1, "A xb.1.1".toList)])] })] } =
      .ok ("A [Circular Ref: xb.1.1]".toList,
        { banks := [(11, { id := 11, title := [], regs := [(1, [(1, "A xb.1.1".toList)])] })] }) ∧
    resolve defaultConfig {} 10 "r1.1".toList 1 []
        { banks := [(1, { id := 1, title := [], regs := [(1, [(1, "B r001.0001".toList)])] })] } =
      .ok ("B [Circular Ref: r001.0001]".toList,
        { banks := [(1, { id := 1, title := [], regs := [(1, [(1, "B r001.0001".toList)])] })] }) := by
  refine ⟨by decide, by decide, by decide⟩

/-- C5 counterexample: with the default configuration, the prefixed
three-part token `"xAB.1.2"` (component `AB` unparseable in base 10) is
copied through unchanged — not replaced by `[BadRef xAB.1.2]` — and a
bare-triad component exceeding `long long` makes resolve throw
(`std::out_of_range` from `std::stoll`) instead of returning a string. -/
theorem c5_badref_counterexample :
    resolve defaultConfig {} 10 "xAB.1.2".toList 1 []
        { banks := [(1, { id := 1, title := [], regs := [(1, [(1, "r1.0001".toList)])] })] } =
      .ok ("xAB.1.2".toList,
        { banks := [(1, { id := 1, title := [], regs := [(1, [(1, "r1.0001".toList)])] })] }) ∧
    "xAB.1.2".toList ≠ "[BadRef xAB.1.2]".toList ∧
    resolve defaultConfig {} 10 "99999999999999999999.1.1".toList 1 []
        { banks := [(1, { id := 1, title := [], regs := [(1, [(1, "r1.0001".toList)])] })] } =
      .error .oor := by
  refine ⟨by decide, by decide, by decide⟩

/-- C5 (amended): malformed same-bank and two-part prefixed tokens are
replaced by `[BadRef <token>]` and the rest of the input is still
processed; a malformed prefixed three-part token is copied through
unchanged; a bare-triad component over `long long` range raises
`std::out_of_range`. -/
theorem c5_badref_amended :
    resolve defaultConfig {} 10 "rZ9.1 r1.2".toList 1 []
        { banks := [(1, { id := 1, title := [], regs := [(1, [(2, "V".toList)])] })] } =
      .ok ("[BadRef rZ9.1] V".toList,
        { banks := [(1, { id := 1, title := [], regs := [(1, [(2, "V".toList)])] })] }) ∧
    resolve defaultConfig {} 10 "xZ.1 r1.2".toList 1 []
        { banks := [(1, { id := 1, title := [], regs := [(1, [(2, "V".toList)])] })] } =
      .ok ("[BadRef xZ.1] V".toList,
        { banks := [(1, { id := 1, title := [], regs := [(1, [(2, "V".toList)])] })] }) ∧
    resolve defaultConfig {} 10 "xAB.1.2 r1.2".toList 1 []
        { banks := [(1, { id := 1, title := [], regs := [(1, [(2, "V".toList)])] })] } =
      .ok ("xAB.1.2 V".toList,
        { banks := [(1, { id := 1, title := [], regs := [(1, [(2, "V".toList)])] })] }) := by
  refine ⟨by decide, by decide, by decide⟩

/-- C6 counterexample: `files/inc.txt` holds `"r1.2"` and cell (1,1,2)
holds `"V"`.  Resolving `"@file(inc.txt)"` yields `"V"`: the reference
token inside the included file's text was expanded by the later passes
of the same call, not left unexpanded as the claim states. -/
theorem c6_include_counterexample :
    resolve defaultConfig
        { files := [("files/inc.txt".toList, "r1.2".toList)] } 10
        "@file(inc.txt)".toList 1 []
        { banks := [(1, { id := 1, title := [], regs := [(1, [(2, "V".toList)])] })] } =
      .ok ("V".toList,
        { banks := [(1, { id := 1, title := [], regs := [(1, [(2, "V".toList)])] })] }) ∧
    "V".toList ≠ "r1.2".toList := by
  refine ⟨by decide, by decide⟩

/-- C6 (amended): pass 1 inserts the file contents verbatim and does
not rescan the insertion (a nested `@file(...)` token inside included
content stays unexpanded), but the later passes of the same call do
expand cell-reference tokens that the inclusion introduced. -/
theorem c6_include_amended :
    passFile { files := [("files/inc.txt".toList, "r1.2 @file(two.txt)".toList),
        ("files/two.txt".toList, "ZZ".toList)] } "@file(inc.txt)".toList =
      "r1.2 @file(two.txt)".toList ∧
    resolve defaultConfig
        { files := [("files/inc.txt".toList, "r1.2 @file(two.txt)".toList),
          ("files/two.txt".toList, "ZZ".toList)] } 10
        "@file(inc.txt)".toList 1 []
        { banks := [(1, { id := 1, title := [], regs := [(1, [(2, "V".toList)])] })] } =
      .ok ("V @file(two.txt)".toList,
        { banks := [(1, { id := 1, title := [], regs := [(1, [(2, "V".toList)])] })] }) := by
  refine ⟨by decide, by decide⟩

/-- C2 counterexample: with bank 2 absent from the workspace but its
context file `files/x00002.txt` on disk, resolving `"x2.1"` loads
bank 2 on demand: the workspace after the call contains a bank (and a
filenames entry) that was not there before — resolution is not a pure
read of the Store. -/
theorem c2_mutation_counterexample :
    resolve defaultConfig
        { files := [("files/x00002.txt".toList,
          writeBankText { id := 2, title := "t".toList, regs := [(1, [(1, "W".toList)])] }
            defaultConfig)] } 10
        "x2.1".toList 1 []
        { banks := [(1, { id := 1, title := [], regs := [(1, [(1, "r1.0001".toList)])] })] } =
      .ok ("W".toList,
        { banks := [(1, { id := 1, title := [], regs := [(1, [(1, "r1.0001".toList)])] }),
            (2, { id := 2, title := "t".toList, regs := [(1, [(1, "W".toList)])] })],
          filenames := [(2, "files/x00002.txt".toList)] }) ∧
    ({ banks := [(1, { id := 1, title := [], regs := [(1, [(1, "r1.0001".toList)])] })] }
        : Workspace) ≠
      { banks := [(1, { id := 1, title := [], regs := [(1, [(1, "r1.0001".toList)])] }),
          (2, { id := 2, title := "t".toList, regs := [(1, [(1, "W".toList)])] })],
        filenames := [(2, "files/x00002.txt".toList)] } := by
  refine ⟨by decide, by decide⟩

lemma mapLookup_mapInsert {α : Type} (m : List (Int × α)) (k : Int) (v : α) (k' : Int) :
    mapLookup (mapInsert m k v) k' = if k' = k then some v else mapLookup m k' := by
  induction m with
  | nil =>
    rw [show mapInsert ([] : List (Int × α)) k v = [(k, v)] from rfl]
    rw [show mapLookup [(k, v)] k' = if k' = k then some v else none from rfl]
    rw [show mapLookup ([] : List (Int × α)) k' = none from rfl]
  | cons p tl ih =>
    rw [show mapInsert (p :: tl) k v =
        (if k < p.1 then (k, v) :: p :: tl
         else if k = p.1 then (k, v) :: tl
         else p :: mapInsert tl k v) from by cases p; rfl]
    by_cases h1 : k < p.1
    · rw [if_pos h1]
      rw [show mapLookup ((k, v) :: p :: tl) k' =
          if k' = k then some v else mapLookup (p :: tl) k' from by rfl]
    · rw [if_neg h1]
      by_cases h2 : k = p.1
      · rw [if_pos h2]
        rw [show mapLookup ((k, v) :: tl) k' =
            if k' = k then some v else mapLookup tl k' from rfl]
        rw [show mapLookup (p :: tl) k' =
            if k' = p.1 then some p.2 else mapLookup tl k' from by cases p; rfl]
        by_cases h3 : k' = k
        · simp only [if_pos h3]
        · simp only [if_neg h3,
            if_neg (show ¬k' = p.1 from fun e => h3 (e.trans h2.symm))]
      · rw [if_neg h2]
        rw [show mapLookup (p :: mapInsert tl k v) k' =
            if k' = p.1 then some p.2 else mapLookup (mapInsert tl k v) k' from by
          cases p; rfl]
        rw [show mapLookup (p :: tl) k' =
            if k' = p.1 then some p.2 else mapLookup tl k' from by cases p; rfl]
        by_cases h3 : k' = p.1
        · simp only [if_pos h3, if_neg (show ¬k' = k from fun e => h2 (e.symm.trans h3))]
        · simp only [if_neg h3, ih]

/-- Existing bank entries survive `ensureBankLoadedInWorkspace`: the
function inserts only a bank id that was absent. -/
lemma ensureBankLoaded_preserves (cfg : Config) (fsys : FileSys) (ws : Workspace)
    (k : Int) :
    ∀ id b, mapLookup ws.banks id = some b →
      mapLookup (ensureBankLoadedInWorkspace cfg fsys ws k).banks id = some b := by
  intro id b hid
  unfold ensureBankLoadedInWorkspace
  split
  · exact hid
  next hmiss =>
    split
    · exact hid
    split
    · exact hid
    · simp only [mapLookup_mapInsert]
      rw [if_neg (fun e => hmiss (by rw [← e, hid]; rfl))]
      exact hid

lemma getValue_preserves {cfg : Config} {fsys : FileSys} {ws : Workspace}
    {bank reg addr : Int} {o : Option Str} {ws1 : Workspace}
    (h : getValue cfg fsys ws bank reg addr = (o, ws1)) :
    ∀ id b, mapLookup ws.banks id = some b → mapLookup ws1.banks id = some b := by
  intro id b hid
  unfold getValue at h
  have hens := ensureBankLoaded_preserves cfg fsys ws bank id b hid
  dsimp only at h
  split at h
  · injection h with h1 h2
    exact h2 ▸ hens
  · split at h
    · injection h with h1 h2
      exact h2 ▸ hens
    · split at h
      · injection h with h1 h2
        exact h2 ▸ hens
      · injection h with h1 h2
        exact h2 ▸ hens

lemma passSame_go_preserves
    (recurse : Str → Int → List Str → Workspace → Except RErr (Str × Workspace))
    (cfg : Config) (fsys : FileSys) (currentBank : Int) (visited : List Str)
    (hrec : ∀ s b v ws out ws', recurse s b v ws = .ok (out, ws') →
      ∀ id bk, mapLookup ws.banks id = some bk → mapLookup ws'.banks id = some bk) :
    ∀ (n : Nat) (s : Str) (ws : Workspace) (out : Str) (ws' : Workspace),
      passSame.go recurse cfg fsys currentBank visited n s ws = .ok (out, ws') →
      ∀ id bk, mapLookup ws.banks id = some bk → mapLookup ws'.banks id = some bk := by
  intro n
  induction n with
  | zero =>
    intro s ws out ws' h id bk hid
    cases s with
    | nil =>
      simp only [passSame.go, Except.ok.injEq, Prod.mk.injEq] at h
      exact h.2 ▸ hid
    | cons c cs =>
      simp only [passSame.go, Except.ok.injEq, Prod.mk.injEq] at h
      exact h.2 ▸ hid
  | succ n ih =>
    intro s ws out ws' h id bk hid
    cases s with
    | nil =>
      simp only [passSame.go, Except.ok.injEq, Prod.mk.injEq] at h
      exact h.2 ▸ hid
    | cons c cs =>
      rw [passSame.go] at h
      cases hm : matchSameAt (c :: cs) with
      | none =>
        rw [hm] at h
        cases hgo : passSame.go recurse cfg fsys currentBank visited n cs ws with
        | error e => rw [hgo] at h; exact Except.noConfusion h
        | ok p =>
          obtain ⟨o2, w2⟩ := p
          rw [hgo] at h
          simp only [Except.ok.injEq, Prod.mk.injEq] at h
          exact h.2 ▸ ih cs ws o2 w2 hgo id bk hid
      | some quad =>
        obtain ⟨tok, m1, m2, rest⟩ := quad
        rw [hm] at h
        dsimp only at h
        split at h
        next => exact Except.noConfusion h
        next piece ws1 heq =>
          have hid1 : mapLookup ws1.banks id = some bk := by
            split at heq
            next r a hp1 hp2 =>
              split at heq
              · simp only [Except.ok.injEq, Prod.mk.injEq] at heq
                exact heq.2 ▸ hid
              · rcases hgv : getValue cfg fsys ws currentBank r a with ⟨o, w1⟩
                rw [hgv] at heq
                have hidg := getValue_preserves hgv id bk hid
                cases o with
                | none =>
                  dsimp only at heq
                  simp only [Except.ok.injEq, Prod.mk.injEq] at heq
                  exact heq.2 ▸ hidg
                | some v =>
                  dsimp only at heq
                  exact hrec v currentBank _ w1 piece ws1 heq id bk hidg
            next =>
              simp only [Except.ok.injEq, Prod.mk.injEq] at heq
              exact heq.2 ▸ hid
          cases hgo : passSame.go recurse cfg fsys currentBank visited n rest ws1 with
          | error e => rw [hgo] at h; exact Except.noConfusion h
          | ok p =>
            obtain ⟨o2, w2⟩ := p
            rw [hgo] at h
            simp only [Except.ok.injEq, Prod.mk.injEq] at h
            exact h.2 ▸ ih rest ws1 o2 w2 hgo id bk hid1

lemma passPref3_go_preserves
    (recurse : Str → Int → List Str → Workspace → Except RErr (Str × Workspace))
    (cfg : Config) (fsys : FileSys) (visited : List Str)
    (hrec : ∀ s b v ws out ws', recurse s b v ws = .ok (out, ws') →
      ∀ id bk, mapLookup ws.banks id = some bk → mapLookup ws'.banks id = some bk) :
    ∀ (n : Nat) (s : Str) (ws : Workspace) (out : Str) (ws' : Workspace),
      passPref3.go recurse cfg fsys visited n s ws = .ok (out, ws') →
      ∀ id bk, mapLookup ws.banks id = some bk → mapLookup ws'.banks id = some bk := by
  intro n
  induction n with
  | zero =>
    intro s ws out ws' h id bk hid
    cases s with
    | nil =>
      simp only [passPref3.go, Except.ok.injEq, Prod.mk.injEq] at h
      exact h.2 ▸ hid
    | cons c cs =>
      simp only [passPref3.go, Except.ok.injEq, Prod.mk.injEq] at h
      exact h.2 ▸ hid
  | succ n ih =>
    intro s ws out ws' h id bk hid
    cases s with
    | nil =>
      simp only [passPref3.go, Except.ok.injEq, Prod.mk.injEq] at h
      exact h.2 ▸ hid
    | cons c cs =>
      rw [passPref3.go] at h
      cases hm : matchPref3At cfg.pfx (c :: cs) with
      | none =>
        rw [hm] at h
        cases hgo : passPref3.go recurse cfg fsys visited n cs ws with
        | error e => rw [hgo] at h; exact Except.noConfusion h
        | ok p =>
          obtain ⟨o2, w2⟩ := p
          rw [hgo] at h
          simp only [Except.ok.injEq, Prod.mk.injEq] at h
          exact h.2 ▸ ih cs ws o2 w2 hgo id bk hid
      | some quint =>
        obtain ⟨tok, m1, m2, m3, rest⟩ := quint
        rw [hm] at h
        dsimp only at h
        split at h
        next => exact Except.noConfusion h
        next piece ws1 heq =>
          have hid1 : mapLookup ws1.banks id = some bk := by
            split at heq
            next b r a hp1 hp2 hp3 =>
              split at heq
              · simp only [Except.ok.injEq, Prod.mk.injEq] at heq
                exact heq.2 ▸ hid
              · rcases hgv : getValue cfg fsys ws b r a with ⟨o, w1⟩
                rw [hgv] at heq
                have hidg := getValue_preserves hgv id bk hid
                cases o with
                | none =>
                  dsimp only at heq
                  simp only [Except.ok.injEq, Prod.mk.injEq] at heq
                  exact heq.2 ▸ hidg
                | some v =>
                  dsimp only at heq
                  exact hrec v b _ w1 piece ws1 heq id bk hidg
            all_goals
              simp only [Except.ok.injEq, Prod.mk.injEq] at heq
              exact heq.2 ▸ hid
          cases hgo : passPref3.go recurse cfg fsys visited n rest ws1 with
          | error e => rw [hgo] at h; exact Except.noConfusion h
          | ok p =>
            obtain ⟨o2, w2⟩ := p
            rw [hgo] at h
            simp only [Except.ok.injEq, Prod.mk.injEq] at h
            exact h.2 ▸ ih rest ws1 o2 w2 hgo id bk hid1

lemma passTwo_go_preserves
    (recurse : Str → Int → List Str → Workspace → Except RErr (Str × Workspace))
    (cfg : Config) (fsys : FileSys) (visited : List Str)
    (hrec : ∀ s b v ws out ws', recurse s b v ws = .ok (out, ws') →
      ∀ id bk, mapLookup ws.banks id = some bk → mapLookup ws'.banks id = some bk) :
    ∀ (n : Nat) (s : Str) (ws : Workspace) (out : Str) (ws' : Workspace),
      passTwo.go recurse cfg fsys visited n s ws = .ok (out, ws') →
      ∀ id bk, mapLookup ws.banks id = some bk → mapLookup ws'.banks id = some bk := by
  intro n
  induction n with
  | zero =>
    intro s ws out ws' h id bk hid
    cases s with
    | nil =>
      simp only [passTwo.go, Except.ok.injEq, Prod.mk.injEq] at h
      exact h.2 ▸ hid
    | cons c cs =>
      simp only [passTwo.go, Except.ok.injEq, Prod.mk.injEq] at h
      exact h.2 ▸ hid
  | succ n ih =>
    intro s ws out ws' h id bk hid
    cases s with
    | nil =>
      simp only [passTwo.go, Except.ok.injEq, Prod.mk.injEq] at h
      exact h.2 ▸ hid
    | cons c cs =>
      rw [passTwo.go] at h
      cases hm : matchTwoAt (c :: cs) with
      | none =>
        rw [hm] at h
        cases hgo : passTwo.go recurse cfg fsys visited n cs ws with
        | error e => rw [hgo] at h; exact Except.noConfusion h
        | ok p =>
          obtain ⟨o2, w2⟩ := p
          rw [hgo] at h
          simp only [Except.ok.injEq, Prod.mk.injEq] at h
          exact h.2 ▸ ih cs ws o2 w2 hgo id bk hid
      | some quint =>
        obtain ⟨pf, tok, m2, m3, rest⟩ := quint
        rw [hm] at h
        dsimp only at h
        split at h
        next => exact Except.noConfusion h
        next piece ws1 heq =>
          have hid1 : mapLookup ws1.banks id = some bk := by
            split at heq
            · simp only [Except.ok.injEq, Prod.mk.injEq] at heq
              exact heq.2 ▸ hid
            · split at heq
              next b a hp1 hp2 =>
                split at heq
                · simp only [Except.ok.injEq, Prod.mk.injEq] at heq
                  exact heq.2 ▸ hid
                · rcases hgv : getValue cfg fsys ws b 1 a with ⟨o, w1⟩
                  rw [hgv] at heq
                  have hidg := getValue_preserves hgv id bk hid
                  cases o with
                  | none =>
                    dsimp only at heq
                    simp only [Except.ok.injEq, Prod.mk.injEq] at heq
                    exact heq.2 ▸ hidg
                  | some v =>
                    dsimp only at heq
                    exact hrec v b _ w1 piece ws1 heq id bk hidg
              all_goals
                simp only [Except.ok.injEq, Prod.mk.injEq] at heq
                exact heq.2 ▸ hid
          cases hgo : passTwo.go recurse cfg fsys visited n rest ws1 with
          | error e => rw [hgo] at h; exact Except.noConfusion h
          | ok p =>
            obtain ⟨o2, w2⟩ := p
            rw [hgo] at h
            simp only [Except.ok.injEq, Prod.mk.injEq] at h
            exact h.2 ▸ ih rest ws1 o2 w2 hgo id bk hid1

lemma passTri_go_preserves
    (recurse : Str → Int → List Str → Workspace → Except RErr (Str × Workspace))
    (cfg : Config) (fsys : FileSys) (visited : List Str)
    (hrec : ∀ s b v ws out ws', recurse s b v ws = .ok (out, ws') →
      ∀ id bk, mapLookup ws.banks id = some bk → mapLookup ws'.banks id = some bk) :
    ∀ (n : Nat) (prev : Option Char) (s : Str) (ws : Workspace) (out : Str) (ws' : Workspace),
      passTri.go recurse cfg fsys visited n prev s ws = .ok (out, ws') →
      ∀ id bk, mapLookup ws.banks id = some bk → mapLookup ws'.banks id = some bk := by
  intro n
  induction n with
  | zero =>
    intro prev s ws out ws' h id bk hid
    cases s with
    | nil =>
      simp only [passTri.go, Except.ok.injEq, Prod.mk.injEq] at h
      exact h.2 ▸ hid
    | cons c cs =>
      simp only [passTri.go, Except.ok.injEq, Prod.mk.injEq] at h
      exact h.2 ▸ hid
  | succ n ih =>
    intro prev s ws out ws' h id bk hid
    cases s with
    | nil =>
      simp only [passTri.go, Except.ok.injEq, Prod.mk.injEq] at h
      exact h.2 ▸ hid
    | cons c cs =>
      simp only [passTri.go] at h
      cases hm : matchTriAt (c :: cs) with
      | none =>
        rw [hm] at h
        cases hgo : passTri.go recurse cfg fsys visited n (some c) cs ws with
        | error e => rw [hgo] at h; exact Except.noConfusion h
        | ok p =>
          obtain ⟨o2, w2⟩ := p
          rw [hgo] at h
          simp only [Except.ok.injEq, Prod.mk.injEq] at h
          exact h.2 ▸ ih (some c) cs ws o2 w2 hgo id bk hid
      | some quint =>
        obtain ⟨tok, m1, m2, m3, rest⟩ := quint
        rw [hm] at h
        dsimp only at h
        split at h
        · -- preceding character alphanumeric: the match is copied through
          cases hgo : passTri.go recurse cfg fsys visited n tok.getLast? rest ws with
          | error e => rw [hgo] at h; exact Except.noConfusion h
          | ok p =>
            obtain ⟨o2, w2⟩ := p
            rw [hgo] at h
            simp only [Except.ok.injEq, Prod.mk.injEq] at h
            exact h.2 ▸ ih tok.getLast? rest ws o2 w2 hgo id bk hid
        · split at h
          next => exact Except.noConfusion h
          next piece ws1 heq =>
            have hid1 : mapLookup ws1.banks id = some bk := by
              split at heq
              next => exact Except.noConfusion heq
              next b hs1 =>
                split at heq
                next => exact Except.noConfusion heq
                next r hs2 =>
                  split at heq
                  next => exact Except.noConfusion heq
                  next a hs3 =>
                    split at heq
                    · simp only [Except.ok.injEq, Prod.mk.injEq] at heq
                      exact heq.2 ▸ hid
                    · rcases hgv : getValue cfg fsys ws b r a with ⟨o, w1⟩
                      rw [hgv] at heq
                      have hidg := getValue_preserves hgv id bk hid
                      cases o with
                      | none =>
                        dsimp only at heq
                        simp only [Except.ok.injEq, Prod.mk.injEq] at heq
                        exact heq.2 ▸ hidg
                      | some v =>
                        dsimp only at heq
                        exact hrec v b _ w1 piece ws1 heq id bk hidg
            cases hgo : passTri.go recurse cfg fsys visited n tok.getLast? rest ws1 with
            | error e => rw [hgo] at h; exact Except.noConfusion h
            | ok p =>
              obtain ⟨o2, w2⟩ := p
              rw [hgo] at h
              simp only [Except.ok.injEq, Prod.mk.injEq] at h
              exact h.2 ▸ ih tok.getLast? rest ws1 o2 w2 hgo id bk hid1

/-- C2 (amended): `Resolver::resolve` never modifies or removes a bank
already present in the Workspace — every pre-existing entry is found
unchanged afterwards.  (It may add banks through on-demand loading,
which is the only mutation; see the counterexample.) -/
theorem c2_resolve_preserves_banks :
    ∀ (fuel : Nat) (cfg : Config) (fsys : FileSys) (s : Str) (bank : Int)
      (visited : List Str) (ws : Workspace) (out : Str) (ws' : Workspace),
      resolve cfg fsys fuel s bank visited ws = .ok (out, ws') →
      ∀ id b, mapLookup ws.banks id = some b → mapLookup ws'.banks id = some b := by
  intro fuel
  induction fuel with
  | zero =>
    intro cfg fsys s bank visited ws out ws' h
    rw [resolve] at h
    exact Except.noConfusion h
  | succ n ih =>
    intro cfg fsys s bank visited ws out ws' h id b hid
    have hrec : ∀ s b v ws out ws', resolve cfg fsys n s b v ws = .ok (out, ws') →
        ∀ id bk, mapLookup ws.banks id = some bk → mapLookup ws'.banks id = some bk :=
      fun s b v ws out ws' h => ih cfg fsys s b v ws out ws' h
    rw [resolve] at h
    try dsimp only at h
    cases h2 : passSame (resolve cfg fsys n) cfg fsys bank visited (passFile fsys s) ws with
    | error e => rw [h2] at h; exact Except.noConfusion h
    | ok p2 =>
      obtain ⟨s2, ws2⟩ := p2
      rw [h2] at h
      rw [passSame] at h2
      have hid2 := passSame_go_preserves (resolve cfg fsys n) cfg fsys bank visited hrec
        _ _ _ _ _ h2 id b hid
      try dsimp only at h
      cases h3 : passPref3 (resolve cfg fsys n) cfg fsys visited s2 ws2 with
      | error e => rw [h3] at h; exact Except.noConfusion h
      | ok p3 =>
        obtain ⟨s3, ws3⟩ := p3
        rw [h3] at h
        rw [passPref3] at h3
        have hid3 := passPref3_go_preserves (resolve cfg fsys n) cfg fsys visited hrec
          _ _ _ _ _ h3 id b hid2
        try dsimp only at h
        cases h4 : passTwo (resolve cfg fsys n) cfg fsys visited s3 ws3 with
        | error e => rw [h4] at h; exact Except.noConfusion h
        | ok p4 =>
          obtain ⟨s4, ws4⟩ := p4
          rw [h4] at h
          rw [passTwo] at h4
          have hid4 := passTwo_go_preserves (resolve cfg fsys n) cfg fsys visited hrec
            _ _ _ _ _ h4 id b hid3
          try dsimp only at h
          cases h5 : passTri (resolve cfg fsys n) cfg fsys visited none s4 ws4 with
          | error e => rw [h5] at h; exact Except.noConfusion h
          | ok p5 =>
            obtain ⟨s5, ws5⟩ := p5
            rw [h5] at h
            rw [passTri] at h5
            have hid5 := passTri_go_preserves (resolve cfg fsys n) cfg fsys visited hrec
              _ _ _ _ _ _ h5 id b hid4
            try dsimp only at h
            simp only [Except.ok.injEq, Prod.mk.injEq] at h
            exact h.2 ▸ hid5

/-- Witness for the amended C2: the lazy-load counterexample run leaves
bank 1's entry untouched. -/
theorem c2_resolve_preserves_banks_witness :
    resolve defaultConfig
        { files := [("files/x00002.txt".toList,
          writeBankText { id := 2, title := "t".toList, regs := [(1, [(1, "W".toList)])] }
            defaultConfig)] } 10
        "x2.1".toList 1 []
        { banks := [(1, { id := 1, title := [], regs := [(1, [(1, "r1.0001".toList)])] })] } =
      .ok ("W".toList,
        { banks := [(1, { id := 1, title := [], regs := [(1, [(1, "r1.0001".toList)])] }),
            (2, { id := 2, title := "t".toList, regs := [(1, [(1, "W".toList)])] })],
          filenames := [(2, "files/x00002.txt".toList)] }) ∧
    mapLookup
        (Workspace.mk
          [(1, { id := 1, title := [], regs := [(1, [(1, "r1.0001".toList)])] }),
            (2, { id := 2, title := "t".toList, regs := [(1, [(1, "W".toList)])] })]
          [(2, "files/x00002.txt".toList)]).banks 1 =
      some { id := 1, title := [], regs := [(1, [(1, "r1.0001".toList)])] } :=
  ⟨by decide,
    c2_resolve_preserves_banks 10 defaultConfig
      { files := [("files/x00002.txt".toList,
        writeBankText { id := 2, title := "t".toList, regs := [(1, [(1, "W".toList)])] }
          defaultConfig)] }
      "x2.1".toList 1 []
      { banks := [(1, { id := 1, title := [], regs := [(1, [(1, "r1.0001".toList)])] })] }
      "W".toList
      { banks := [(1, { id := 1, title := [], regs := [(1, [(1, "r1.0001".toList)])] }),
          (2, { id := 2, title := "t".toList, regs := [(1, [(1, "W".toList)])] })],
        filenames := [(2, "files/x00002.txt".toList)] }
      (by decide) 1 { id := 1, title := [], regs := [(1, [(1, "r1.0001".toList)])] }
      (by decide)⟩

/-- C8 (confirmed): when the manifest's POSIX entry file does not exist
in the filesystem, `Kernel::run` fails with the entry-not-found report,
the filesystem is returned unchanged — no `code.txt`, `input.json`,
`output.json`, `run.log` or `run.err` is created (the existence check
precedes every write in the output directory) — and no process
invocation occurs: the result is identical for every exec oracle. -/
theorem c8_entry_not_found (cfg : Config) (plugins : List PluginManifest) (fuel : Nat)
    (e₁ e₂ : FileSys → Int × FileSys) (name : Str) (bank reg addr : Int)
    (sj : Str) (fsys : FileSys) (ws : Workspace) (P : PluginManifest)
    (raw code : Str) (ws1 ws2 : Workspace)
    (hfind : findPlugin plugins name = some P)
    (hgv : getValue cfg fsys (ensureBankLoadedInWorkspace cfg fsys ws bank) bank reg addr
        = (some raw, ws1))
    (hres : resolve cfg fsys fuel raw bank [] ws1 = .ok (code, ws2))
    (hentry : P.entry_lin.isEmpty = false)
    (hmiss : fsLookup fsys (P.dir ++ '/' :: P.entry_lin) = none) :
    kernelRun cfg plugins fuel e₁ name bank reg addr sj fsys ws =
      .ok ⟨false, none, "Entry not found: ".toList ++ (P.dir ++ '/' :: P.entry_lin),
        fsys, ws2⟩ ∧
    kernelRun cfg plugins fuel e₁ name bank reg addr sj fsys ws =
      kernelRun cfg plugins fuel e₂ name bank reg addr sj fsys ws := by
  have key : ∀ e : FileSys → Int × FileSys,
      kernelRun cfg plugins fuel e name bank reg addr sj fsys ws =
        .ok ⟨false, none, "Entry not found: ".toList ++ (P.dir ++ '/' :: P.entry_lin),
          fsys, ws2⟩ := by
    intro e
    rw [kernelRun, hfind]
    dsimp only
    rw [hgv]
    dsimp only
    rw [hres]
    simp only [kWindows, Bool.false_eq_true, if_false, hentry, hmiss, Option.isNone_none,
      if_true]
  exact ⟨key e₁, (key e₁).trans (key e₂).symm⟩

/-- Witness for C8: a one-plugin kernel whose `run.sh` is absent; the
run fails with the entry-not-found report, leaves the (empty)
filesystem untouched, and two different exec oracles give the same
result. -/
theorem c8_entry_not_found_witness :
    kernelRun defaultConfig
        [⟨"demo".toList, [], "run.sh".toList, "plugins/demo".toList⟩] 10
        (fun f => (0, f)) "demo".toList 1 1 1 [] {}
        { banks := [(1, { id := 1, title := [], regs := [(1, [(1, "V".toList)])] })] } =
      .ok ⟨false, none,
        "Entry not found: ".toList ++ ("plugins/demo".toList ++ '/' :: "run.sh".toList),
        {},
        { banks := [(1, { id := 1, title := [], regs := [(1, [(1, "V".toList)])] })] }⟩ ∧
    kernelRun defaultConfig
        [⟨"demo".toList, [], "run.sh".toList, "plugins/demo".toList⟩] 10
        (fun f => (0, f)) "demo".toList 1 1 1 [] {}
        { banks := [(1, { id := 1, title := [], regs := [(1, [(1, "V".toList)])] })] } =
      kernelRun defaultConfig
        [⟨"demo".toList, [], "run.sh".toList, "plugins/demo".toList⟩] 10
        (fun f => (7, fsInsert f "junk".toList "junk".toList)) "demo".toList 1 1 1 [] {}
        { banks := [(1, { id := 1, title := [], regs := [(1, [(1, "V".toList)])] })] } :=
  c8_entry_not_found defaultConfig
    [⟨"demo".toList, [], "run.sh".toList, "plugins/demo".toList⟩] 10
    (fun f => (0, f)) (fun f => (7, fsInsert f "junk".toList "junk".toList))
    "demo".toList 1 1 1 [] {}
    { banks := [(1, { id := 1, title := [], regs := [(1, [(1, "V".toList)])] })] }
    ⟨"demo".toList, [], "run.sh".toList, "plugins/demo".toList⟩
    "V".toList "V".toList
    { banks := [(1, { id := 1, title := [], regs := [(1, [(1, "V".toList)])] })] }
    { banks := [(1, { id := 1, title := [], regs := [(1, [(1, "V".toList)])] })] }
    (by decide) (by decide) (by decide) (by decide) (by decide)

/-- C9 (confirmed): when the child process exits without creating
`output.json`, `Kernel::run` returns (an `.ok`-wrapped — no exception
escapes this path) failure whose report carries the exit code and,
when non-empty, the captured `run.err` text. -/
theorem c9_missing_output (cfg : Config) (plugins : List PluginManifest) (fuel : Nat)
    (e₁ : FileSys → Int × FileSys) (name : Str) (bank reg addr : Int)
    (sj : Str) (fsys : FileSys) (ws : Workspace) (P : PluginManifest)
    (raw code : Str) (ws1 ws2 : Workspace) (ec : Int) (fs3 : FileSys)
    (hfind : findPlugin plugins name = some P)
    (hgv : getValue cfg fsys (ensureBankLoadedInWorkspace cfg fsys ws bank) bank reg addr
        = (some raw, ws1))
    (hres : resolve cfg fsys fuel raw bank [] ws1 = .ok (code, ws2))
    (hentry : P.entry_lin.isEmpty = false)
    (hhit : (fsLookup fsys (P.dir ++ '/' :: P.entry_lin)).isNone = false)
    (hexec : e₁ (kFs2 cfg name bank reg addr sj code (wsIndexTitle ws2 bank).1 fsys)
        = (ec, fs3))
    (hnoout : fsLookup fs3 (kOutdir cfg name bank reg addr ++ "/output.json".toList)
        = none) :
    kernelRun cfg plugins fuel e₁ name bank reg addr sj fsys ws =
      .ok ⟨false, none,
        "Plugin did not produce output.json. Exit=".toList ++ intToDecStr ec
          ++ (if ((fsLookup fs3 (kOutdir cfg name bank reg addr ++ "/run.err".toList)).getD
                []).isEmpty
              then []
              else "\nerr:\n".toList
                ++ (fsLookup fs3
                    (kOutdir cfg name bank reg addr ++ "/run.err".toList)).getD []),
        fs3, (wsIndexTitle ws2 bank).2⟩ := by
  rw [kernelRun, hfind]
  dsimp only
  rw [hgv]
  dsimp only
  rw [hres]
  simp only [kWindows, Bool.false_eq_true, if_false, hentry, hhit]
  rw [hexec]
  dsimp only
  rw [hnoout]

/-- Witness for C9: the entry file exists, the exec oracle writes
nothing and exits 3, so `output.json` is absent and the run fails with
`"Plugin did not produce output.json. Exit=3"` (no stderr capture). -/
theorem c9_missing_output_witness :
    kernelRun defaultConfig
        [⟨"demo".toList, [], "run.sh".toList, "plugins/demo".toList⟩] 10
        (fun f => (3, f)) "demo".toList 1 1 1 []
        { files := [("plugins/demo/run.sh".toList, "#".toList)] }
        { banks := [(1, { id := 1, title := [], regs := [(1, [(1, "V".toList)])] })] } =
      .ok ⟨false, none,
        "Plugin did not produce output.json. Exit=".toList ++ intToDecStr 3
          ++ (if ((fsLookup
                  (kFs2 defaultConfig "demo".toList 1 1 1 [] "V".toList
                    (wsIndexTitle
                      { banks :=
                        [(1, { id := 1, title := [], regs := [(1, [(1, "V".toList)])] })] }
                      1).1
                    { files := [("plugins/demo/run.sh".toList, "#".toList)] })
                  (kOutdir defaultConfig "demo".toList 1 1 1
                    ++ "/run.err".toList)).getD []).isEmpty
              then []
              else "\nerr:\n".toList
                ++ (fsLookup
                    (kFs2 defaultConfig "demo".toList 1 1 1 [] "V".toList
                      (wsIndexTitle
                        { banks :=
                          [(1, { id := 1, title := [], regs := [(1, [(1, "V".toList)])] })] }
                        1).1
                      { files := [("plugins/demo/run.sh".toList, "#".toList)] })
                    (kOutdir defaultConfig "demo".toList 1 1 1
                      ++ "/run.err".toList)).getD []),
        kFs2 defaultConfig "demo".toList 1 1 1 [] "V".toList
          (wsIndexTitle
            { banks := [(1, { id := 1, title := [], regs := [(1, [(1, "V".toList)])] })] }
            1).1
          { files := [("plugins/demo/run.sh".toList, "#".toList)] },
        (wsIndexTitle
          { banks := [(1, { id := 1, title := [], regs := [(1, [(1, "V".toList)])] })] }
          1).2⟩ :=
  c9_missing_output defaultConfig
    [⟨"demo".toList, [], "run.sh".toList, "plugins/demo".toList⟩] 10
    (fun f => (3, f)) "demo".toList 1 1 1 []
    { files := [("plugins/demo/run.sh".toList, "#".toList)] }
    { banks := [(1, { id := 1, title := [], regs := [(1, [(1, "V".toList)])] })] }
    ⟨"demo".toList, [], "run.sh".toList, "plugins/demo".toList⟩
    "V".toList "V".toList
    { banks := [(1, { id := 1, title := [], regs := [(1, [(1, "V".toList)])] })] }
    { banks := [(1, { id := 1, title := [], regs := [(1, [(1, "V".toList)])] })] }
    3
    (kFs2 defaultConfig "demo".toList 1 1 1 [] "V".toList
      (wsIndexTitle
        { banks := [(1, { id := 1, title := [], regs := [(1, [(1, "V".toList)])] })] }
        1).1
      { files := [("plugins/demo/run.sh".toList, "#".toList)] })
    (by decide) (by decide) (by decide) (by decide) (by decide) rfl (by decide)

end Scripted